import Mathlib

/-
  Verification of the dudect measurement/statistics engine
  (src/dudect/dudect.c of this repository).

  Shallow embedding conventions:
  * C doubles are embedded as exact numbers: the accumulator state
    (mean, m2) lives in the rationals, and the t statistic, which needs
    a square root, lives in the reals.  Division by zero follows the
    Lean convention x / 0 = 0 (IEEE arithmetic would give an infinity
    or NaN; at every point where this matters it is noted next to the
    theorem concerned).
  * The per-population count n is declared double in the C struct but
    is only ever incremented by 1 from 0, so it is embedded as a
    natural number.
  * The C population index (uint8_t, asserted to be 0 or 1 by t_push)
    selects between the two components of a pair: index 0 is the first
    component, any other index the second.  Theorems that depend on the
    index carry the hypothesis k < 2, matching the C assertion.
  * qsort with the comparator cmp (line 123) is embedded as sorting in
    ascending order of the int64_t values.  The C comparator returns
    (int)(*a - *b), which truncates the 64-bit difference to 32 bits;
    the embedding assumes the comparator is consistent, which holds
    whenever pairwise differences of the batch fit in 32 bits.
  * Constants that live in the missing header dudect.h
    (DUDECT_NUMBER_PERCENTILES, DUDECT_ENOUGH_MEASUREMENTS,
    DUDECT_TESTS = P + 2, the dudect_state_t enum) are parameters P and
    enough of the embedding, following the spec, which fixes only
    T = P + 2 and describes the gate threshold as a fixed constant
    (e.g. 10000).  The literal 10000 in update_statistics (line 224 of
    the source) is kept literally.
-/

namespace Dudect

/-- Verdict enum dudect_state_t. Modelled from the spec: the enum itself is
declared in the missing header dudect.h; its three constants are used by
report and dudect_main in src/dudect/dudect.c. -/
inductive dudect_state_t where
  | DUDECT_NO_LEAKAGE_EVIDENCE_YET : dudect_state_t
  | DUDECT_LEAKAGE_FOUND : dudect_state_t
  | DUDECT_NOT_ENOUGHT_MEASUREMENTS : dudect_state_t
deriving DecidableEq

/-- Reads component k of a length-2 array embedded as a pair (index 0 gives
the first component, any other index the second). -/
def sel2 {α : Type} (p : α × α) (k : ℕ) : α :=
  if k = 0 then p.1 else p.2

/-- Writes component k of a length-2 array embedded as a pair. -/
def upd2 {α : Type} (p : α × α) (k : ℕ) (v : α) : α × α :=
  if k = 0 then (v, p.2) else (p.1, v)

/-- State of one online Welch accumulator (struct ttest_ctx_t): per
population mean, sum of squared deviations m2, and count n. -/
structure ttest_ctx where
  mean : ℚ × ℚ
  m2 : ℚ × ℚ
  n : ℕ × ℕ
deriving DecidableEq

/-- Welford update t_push (dudect.c lines 90 to 101). -/
def t_push (c : ttest_ctx) (x : ℚ) (k : ℕ) : ttest_ctx :=
  let n1 : ℕ := sel2 c.n k + 1
  let delta : ℚ := x - sel2 c.mean k
  let mean1 : ℚ := sel2 c.mean k + delta / (n1 : ℚ)
  { n := upd2 c.n k n1,
    mean := upd2 c.mean k mean1,
    m2 := upd2 c.m2 k (sel2 c.m2 k + delta * (x - mean1)) }

/-- Welch t statistic t_compute (dudect.c lines 103 to 112). -/
noncomputable def t_compute (c : ttest_ctx) : ℝ :=
  let var0 : ℝ := (c.m2.1 : ℝ) / ((c.n.1 : ℝ) - 1)
  let var1 : ℝ := (c.m2.2 : ℝ) / ((c.n.2 : ℝ) - 1)
  let num : ℝ := (c.mean.1 : ℝ) - (c.mean.2 : ℝ)
  let den : ℝ := Real.sqrt (var0 / (c.n.1 : ℝ) + var1 / (c.n.2 : ℝ))
  num / den

/-- Accumulator initial state t_init (dudect.c lines 114 to 121). -/
def t_init : ttest_ctx :=
  { mean := (0, 0), m2 := (0, 0), n := (0, 0) }

/-- Ascending sort of the int64_t buffer; embeds qsort with the comparator
cmp (dudect.c lines 123 to 130), assuming the comparator is consistent. -/
def sortInt (a : List ℤ) : List ℤ :=
  a.insertionSort (· ≤ ·)

/-- Index computed by percentile (dudect.c line 131): the size_t cast of
size * which truncates toward zero, which on nonnegative input is the
floor. -/
noncomputable def array_position (size : ℕ) (which : ℝ) : ℕ :=
  Nat.floor ((size : ℝ) * which)

/-- Sorted-array quantile lookup percentile (dudect.c lines 128 to 134).
The source asserts array_position < size before indexing; the embedding is
total via getD. -/
noncomputable def percentile (a : List ℤ) (which : ℝ) (size : ℕ) : ℤ :=
  (sortInt a).getD (array_position size which) 0

/-- Quantile schedule passed by prepare_percentiles (dudect.c line 147):
1 - 0.5 ^ (10 * (i + 1) / P), with a real exponent. -/
noncomputable def percentile_which (P : ℕ) (i : ℕ) : ℝ :=
  1 - ((1 : ℝ) / 2) ^ ((10 * ((i : ℝ) + 1) / (P : ℝ)) : ℝ)

/-- Threshold calibration prepare_percentiles (dudect.c lines 142 to 150). -/
noncomputable def prepare_percentiles (exec_times : List ℤ)
    (number_measurements : ℕ) (P : ℕ) : List ℤ :=
  (List.range P).map (fun i =>
    percentile exec_times (percentile_which P i) number_measurements)

/-- Threshold constant t_threshold_bananas (dudect.c line 182). -/
def t_threshold_bananas : ℕ := 500

/-- Threshold constant t_threshold_moderate (dudect.c line 183). -/
def t_threshold_moderate : ℕ := 10

/-- Inner crop loop of the update_statistics body (dudect.c lines 214 to
220): push the delta into every cropped accumulator crop_index + 1 whose
threshold exceeds it. -/
def crop_fold (P : ℕ) (percentiles : List ℤ) (c1 : List ttest_ctx)
    (difference : ℤ) (k : ℕ) : List ttest_ctx :=
  (List.range P).foldl
    (fun cs crop_index =>
      if difference < percentiles.getD crop_index 0 then
        cs.set (crop_index + 1)
          (t_push (cs.getD (crop_index + 1) t_init) (difference : ℚ) k)
      else cs) c1

/-- Body of the update_statistics loop (dudect.c lines 203 to 229) for one
measurement: skip a negative delta, otherwise push into the raw accumulator
at index 0, run the crop loop, and, when the raw class-0 count is above
10000 after the raw push, push the squared centered delta into the
second-order accumulator at index 1 + P. -/
def update_one (P : ℕ) (percentiles : List ℤ) (ctxs : List ttest_ctx)
    (difference : ℤ) (k : ℕ) : List ttest_ctx :=
  if difference < 0 then ctxs
  else
    let c1 := ctxs.set 0 (t_push (ctxs.getD 0 t_init) (difference : ℚ) k)
    let c2 := crop_fold P percentiles c1 difference k
    if 10000 < (c2.getD 0 t_init).n.1 then
      let centered : ℚ := (difference : ℚ) - sel2 (c2.getD 0 t_init).mean k
      c2.set (1 + P)
        (t_push (c2.getD (1 + P) t_init) (centered * centered) k)
    else c2

/-- Batch statistics update update_statistics (dudect.c lines 199 to 231):
processes measurement indices 10 up to number_measurements - 2. -/
def update_statistics (P : ℕ) (percentiles : List ℤ) (ctxs : List ttest_ctx)
    (exec_times : List ℤ) (classes : List ℕ)
    (number_measurements : ℕ) : List ttest_ctx :=
  (List.range' 10 (number_measurements - 1 - 10)).foldl
    (fun cs i => update_one P percentiles cs (exec_times.getD i 0)
      (classes.getD i 0)) ctxs

/-- Selection loop max_test (dudect.c lines 246 to 260): scan all
accumulators, and among those whose class-0 count exceeds the
enough-measurements gate track the first index attaining the maximal
absolute t statistic; the running index starts at 0. The C function
returns the pointer ttest_ctxs[ret]; the embedding returns the index
ret. -/
noncomputable def max_test_fold (enough : ℕ) (ctxs : List ttest_ctx)
    (acc : ℕ × ℝ) (L : List ℕ) : ℕ × ℝ :=
  L.foldl
    (fun (p : ℕ × ℝ) i =>
      if enough < (ctxs.getD i t_init).n.1 then
        if p.2 < |t_compute (ctxs.getD i t_init)| then
          (i, |t_compute (ctxs.getD i t_init)|)
        else p
      else p)
    acc

noncomputable def max_test (enough : ℕ) (ctxs : List ttest_ctx) : ℕ :=
  (max_test_fold enough ctxs ((0 : ℕ), (0 : ℝ)) (List.range ctxs.length)).1

/-- Verdict computation report (dudect.c lines 262 to 329), diagnostics
printing omitted: select an accumulator via max_test, return the
not-enough verdict when its total count is below the gate constant, and
otherwise classify its absolute t statistic against the two thresholds. -/
noncomputable def report (enough : ℕ) (ctxs : List ttest_ctx) :
    dudect_state_t :=
  let t := ctxs.getD (max_test enough ctxs) t_init
  let max_t : ℝ := |t_compute t|
  let number_traces_max_t : ℝ := (t.n.1 : ℝ) + (t.n.2 : ℝ)
  if number_traces_max_t < (enough : ℝ) then
    dudect_state_t.DUDECT_NOT_ENOUGHT_MEASUREMENTS
  else if (t_threshold_bananas : ℝ) < max_t then
    dudect_state_t.DUDECT_LEAKAGE_FOUND
  else if (t_threshold_moderate : ℝ) < max_t then
    dudect_state_t.DUDECT_LEAKAGE_FOUND
  else
    dudect_state_t.DUDECT_NO_LEAKAGE_EVIDENCE_YET

/-- Engine state owned across calls (struct dudect_ctx_t restricted to the
fields the statistics engine reads and writes): the P + 2 accumulators,
the P thresholds, and the exec_times buffer of length N.  The buffer
matters because measure only writes its first N - 1 slots, while
percentile sorts all N; slot N - 1 keeps its previous value. -/
structure dudect_ctx where
  ttest_ctxs : List ttest_ctx
  percentiles : List ℤ
  exec_times : List ℤ
deriving DecidableEq

/-- One engine step dudect_main (dudect.c lines 331 to 349).  The timing
deltas (the first N - 1 slots of exec_times written by measure) and the
class labels are inputs: they come from the hardware counter and from the
external prepare callback.  Calibration is triggered exactly when the last
stored threshold is 0. -/
noncomputable def dudect_main (N P enough : ℕ) (st : dudect_ctx)
    (deltas : List ℤ) (classes : List ℕ) : dudect_ctx × dudect_state_t :=
  let exec_times := deltas ++ [st.exec_times.getD (N - 1) 0]
  if st.percentiles.getD (P - 1) 0 = 0 then
    ({ ttest_ctxs := st.ttest_ctxs,
       percentiles := prepare_percentiles exec_times N P,
       exec_times := sortInt exec_times },
     dudect_state_t.DUDECT_NOT_ENOUGHT_MEASUREMENTS)
  else
    let ctxs := update_statistics P st.percentiles st.ttest_ctxs exec_times
      classes N
    ({ ttest_ctxs := ctxs,
       percentiles := st.percentiles,
       exec_times := exec_times },
     report enough ctxs)

/-- Freshly initialized context dudect_init (dudect.c lines 351 to 382):
all buffers are calloc zeroed and every accumulator is t_init. -/
def dudect_init (N P : ℕ) : dudect_ctx :=
  { ttest_ctxs := List.replicate (P + 2) t_init,
    percentiles := List.replicate P 0,
    exec_times := List.replicate N 0 }

/-- Repeated invocation of the engine on a list of batches, as the driver
loop in src/dudect/measure.c does. -/
noncomputable def dudect_run (N P enough : ℕ) (st : dudect_ctx)
    (batches : List (List ℤ × List ℕ)) : dudect_ctx :=
  batches.foldl (fun s b => (dudect_main N P enough s b.1 b.2).1) st

/-- Engine states reachable from a fresh context by steps whose batch data
has the shape produced by measure and prepare: N - 1 deltas, N class
labels, every label 0 or 1 (asserted by t_push in the source). -/
inductive Reachable (N P enough : ℕ) : dudect_ctx → Prop where
  | init : Reachable N P enough (dudect_init N P)
  | step (st : dudect_ctx) (deltas : List ℤ) (classes : List ℕ) :
      Reachable N P enough st →
      deltas.length = N - 1 → classes.length = N →
      (∀ k ∈ classes, k < 2) →
      Reachable N P enough (dudect_main N P enough st deltas classes).1

/-
  Two-pass sample statistics, written from the words of the spec (section
  8, first testable property), to be compared with the online Welford
  accumulator of the source.
-/

/-- Values of the pushes whose population label equals k, in order. -/
def classValues (pushes : List (ℚ × ℕ)) (k : ℕ) : List ℚ :=
  (pushes.filter (fun p => p.2 == k)).map Prod.fst

/-- Two-pass sample mean of a list of values. -/
def twoPassMean (xs : List ℚ) : ℚ :=
  xs.sum / (xs.length : ℚ)

/-- Two-pass sum of squared deviations from the mean. -/
def twoPassM2 (xs : List ℚ) : ℚ :=
  (xs.map (fun x => (x - twoPassMean xs) ^ 2)).sum

/-- Single-population Welford step on a (count, mean, m2) triple; this is
the effect of t_push on the population it touches. -/
def w_push (s : ℕ × ℚ × ℚ) (x : ℚ) : ℕ × ℚ × ℚ :=
  (s.1 + 1,
   s.2.1 + (x - s.2.1) / ((s.1 + 1 : ℕ) : ℚ),
   s.2.2 + (x - s.2.1) * (x - (s.2.1 + (x - s.2.1) / ((s.1 + 1 : ℕ) : ℚ))))

/-- Projection of one population of an accumulator onto a Welford triple. -/
def projPop (k : ℕ) (c : ttest_ctx) : ℕ × ℚ × ℚ :=
  (sel2 c.n k, sel2 c.mean k, sel2 c.m2 k)

/-- Dominance of the raw accumulator: in every reachable engine state the
raw accumulator at index 0 has received at least as many class-0 pushes as
any other accumulator, because every push into a cropped or second-order
accumulator is accompanied by a raw push in the same loop iteration. -/
def Dom (ctxs : List ttest_ctx) : Prop :=
  ∀ i, (ctxs.getD i t_init).n.1 ≤ (ctxs.getD 0 t_init).n.1

/-- Invocations of t_compute performed inside max_test (dudect.c line 252):
one for every accumulator whose class-0 count exceeds the gate. -/
def max_test_calls (enough : ℕ) (ctxs : List ttest_ctx) : List ttest_ctx :=
  (List.range ctxs.length).filterMap (fun i =>
    if enough < (ctxs.getD i t_init).n.1 then some (ctxs.getD i t_init)
    else none)

/-- Invocations of t_compute performed during one report call: the gated
ones inside max_test, followed by the unconditional invocation on the
selected accumulator (dudect.c line 283). -/
noncomputable def report_calls (enough : ℕ) (ctxs : List ttest_ctx) :
    List ttest_ctx :=
  max_test_calls enough ctxs ++ [ctxs.getD (max_test enough ctxs) t_init]

/-- Reachable engine state after one calibration step on batches of
size 12 with gate constant 0, used to witness the classifier theorem. -/
noncomputable def c1_witness_state : dudect_ctx :=
  (dudect_main 12 1 0 (dudect_init 12 1) (List.replicate 11 7)
    (List.replicate 12 0)).1

/-- Reachable engine state after one calibration step on batches of
size 16 with gate constant 4, used by the boundary counterexamples. -/
noncomputable def cex_state16 : dudect_ctx :=
  (dudect_main 16 1 4 (dudect_init 16 1) (List.replicate 15 7)
    (List.replicate 16 0)).1

/-- Class labels of the C2 counterexample batch: the five processed
measurement indices 10 to 14 carry labels 0, 0, 1, 1, 1. -/
def c2_classes : List ℕ := [0, 0, 0, 0, 0, 0, 0, 0, 0, 0, 0, 0, 1, 1, 1, 0]

/-- Class labels of the C3 counterexample batch: the five processed
measurement indices 10 to 14 carry labels 0, 0, 0, 1, 1. -/
def c3_classes : List ℕ := [0, 0, 0, 0, 0, 0, 0, 0, 0, 0, 0, 0, 0, 1, 1, 0]

/-- Reachable engine state after one calibration step on batches of
size 12 with gate constant 10000, used by the t_compute call-site
counterexample. -/
noncomputable def cex_state12 : dudect_ctx :=
  (dudect_main 12 1 10000 (dudect_init 12 1) (List.replicate 11 7)
    (List.replicate 12 0)).1

/-- Reachable engine state after one calibration step on batches of
size 10012 with gate constant 10000, used by the second-order
counterexample. -/
noncomputable def c5_state : dudect_ctx :=
  (dudect_main 10012 1 10000 (dudect_init 10012 1)
    (List.replicate 10011 7) (List.replicate 10012 1)).1


lemma sum_map_sub_sq (xs : List ℚ) (c : ℚ) :
    (xs.map (fun y => (y - c) ^ 2)).sum
      = (xs.map (fun y => y ^ 2)).sum - 2 * c * xs.sum
        + (xs.length : ℚ) * c ^ 2 := by
  induction xs with
  | nil => simp
  | cons a l ih =>
    simp only [List.map_cons, List.sum_cons, List.length_cons, ih]
    push_cast
    ring

lemma twoPassM2_powersum (xs : List ℚ) :
    twoPassM2 xs
      = (xs.map (fun y => y ^ 2)).sum - xs.sum ^ 2 / (xs.length : ℚ) := by
  unfold twoPassM2 twoPassMean
  rw [sum_map_sub_sq]
  rcases eq_or_ne xs [] with rfl | hne
  · simp
  · have hn : (xs.length : ℚ) ≠ 0 := by
      exact_mod_cast Nat.pos_iff_ne_zero.mp (List.length_pos.mpr hne)
    field_simp
    ring

lemma w_fold_powersum (xs : List ℚ) :
    xs.foldl w_push ((0 : ℕ), (0 : ℚ), (0 : ℚ))
      = (xs.length, xs.sum / (xs.length : ℚ),
         (xs.map (fun y => y ^ 2)).sum - xs.sum ^ 2 / (xs.length : ℚ)) := by
  induction xs using List.reverseRecOn with
  | nil => norm_num
  | append_singleton l x ih =>
    rw [List.foldl_append, List.foldl_cons, List.foldl_nil, ih]
    rcases eq_or_ne l [] with rfl | hne
    · simp [w_push]
    · have hn : (l.length : ℚ) ≠ 0 := by
        exact_mod_cast Nat.pos_iff_ne_zero.mp (List.length_pos.mpr hne)
      have hn1 : ((l.length : ℚ) + 1) ≠ 0 := by positivity
      refine Prod.ext (by simp [w_push]) (Prod.ext ?_ ?_)
      · show l.sum / (l.length : ℚ)
            + (x - l.sum / (l.length : ℚ)) / ((l.length + 1 : ℕ) : ℚ)
            = (l ++ [x]).sum / ((l ++ [x]).length : ℚ)
        simp only [List.sum_append, List.length_append, List.sum_cons,
          List.sum_nil, List.length_cons, List.length_nil]
        push_cast
        field_simp
        ring
      · show ((l.map (fun y => y ^ 2)).sum - l.sum ^ 2 / (l.length : ℚ))
            + (x - l.sum / (l.length : ℚ))
              * (x - (l.sum / (l.length : ℚ)
                + (x - l.sum / (l.length : ℚ)) / ((l.length + 1 : ℕ) : ℚ)))
            = ((l ++ [x]).map (fun y => y ^ 2)).sum
              - (l ++ [x]).sum ^ 2 / (((l ++ [x]).length : ℕ) : ℚ)
        simp only [List.sum_append, List.length_append, List.map_append,
          List.sum_cons, List.sum_nil, List.length_cons, List.length_nil,
          List.map_cons, List.map_nil]
        push_cast
        field_simp
        ring

lemma classValues_cons (p : ℚ × ℕ) (rest : List (ℚ × ℕ)) (k : ℕ) :
    classValues (p :: rest) k
      = if p.2 = k then p.1 :: classValues rest k else classValues rest k := by
  by_cases h : p.2 = k <;> simp [classValues, List.filter_cons, h]

lemma projPop_t_push (c : ttest_ctx) (x : ℚ) (k k' : ℕ)
    (hk : k < 2) (hk' : k' < 2) :
    projPop k (t_push c x k')
      = if k' = k then w_push (projPop k c) x else projPop k c := by
  interval_cases k <;> interval_cases k' <;>
    simp [projPop, t_push, w_push, sel2, upd2]

lemma projPop_fold (pushes : List (ℚ × ℕ)) (k : ℕ) (hk : k < 2)
    (hcl : ∀ p ∈ pushes, p.2 < 2) (c : ttest_ctx) :
    projPop k (pushes.foldl (fun a p => t_push a p.1 p.2) c)
      = (classValues pushes k).foldl w_push (projPop k c) := by
  induction pushes generalizing c with
  | nil => simp [classValues]
  | cons p rest ih =>
    have hp : p.2 < 2 := hcl p (by simp)
    have hrest : ∀ q ∈ rest, q.2 < 2 := fun q hq => hcl q (by simp [hq])
    simp only [List.foldl_cons]
    rw [ih hrest, projPop_t_push c p.1 k p.2 hk hp, classValues_cons]
    by_cases h : p.2 = k
    · rw [if_pos h, if_pos h, List.foldl_cons]
    · rw [if_neg h, if_neg h]

/-- C7: for every finite sequence of (value, class) pushes into an
accumulator starting from the initial state, the resulting per-class
count, mean, m2 and variance m2 / (count - 1) equal the closed-form
two-pass sample statistics of the per-class subsequence, exactly, in the
exact-arithmetic embedding of the C doubles. -/
theorem welford_two_pass_equiv (pushes : List (ℚ × ℕ)) (k : ℕ)
    (hcl : ∀ p ∈ pushes, p.2 < 2) (hk : k < 2) :
    sel2 (pushes.foldl (fun a p => t_push a p.1 p.2) t_init).n k
        = (classValues pushes k).length ∧
    sel2 (pushes.foldl (fun a p => t_push a p.1 p.2) t_init).mean k
        = twoPassMean (classValues pushes k) ∧
    sel2 (pushes.foldl (fun a p => t_push a p.1 p.2) t_init).m2 k
        = twoPassM2 (classValues pushes k) ∧
    sel2 (pushes.foldl (fun a p => t_push a p.1 p.2) t_init).m2 k
        / (((sel2 (pushes.foldl (fun a p => t_push a p.1 p.2) t_init).n k : ℕ) : ℚ) - 1)
        = twoPassM2 (classValues pushes k)
          / (((classValues pushes k).length : ℚ) - 1) := by
  have h := projPop_fold pushes k hk hcl t_init
  have h0 : projPop k t_init = ((0 : ℕ), (0 : ℚ), (0 : ℚ)) := by
    simp [projPop, t_init, sel2]
  rw [h0, w_fold_powersum] at h
  simp only [projPop, Prod.mk.injEq] at h
  obtain ⟨hn, hm, h2⟩ := h
  refine ⟨hn, ?_, ?_, ?_⟩
  · rw [hm, twoPassMean]
  · rw [h2, ← twoPassM2_powersum]
  · rw [hn, h2, ← twoPassM2_powersum]

/-- Witness for welford_two_pass_equiv at a concrete push sequence. -/
theorem welford_two_pass_equiv_witness :
    sel2 (([((3 : ℚ), 0), (5, 0), (4, 1)] : List (ℚ × ℕ)).foldl
        (fun a p => t_push a p.1 p.2) t_init).n 0
        = (classValues [((3 : ℚ), 0), (5, 0), (4, 1)] 0).length ∧
    sel2 (([((3 : ℚ), 0), (5, 0), (4, 1)] : List (ℚ × ℕ)).foldl
        (fun a p => t_push a p.1 p.2) t_init).mean 0
        = twoPassMean (classValues [((3 : ℚ), 0), (5, 0), (4, 1)] 0) ∧
    sel2 (([((3 : ℚ), 0), (5, 0), (4, 1)] : List (ℚ × ℕ)).foldl
        (fun a p => t_push a p.1 p.2) t_init).m2 0
        = twoPassM2 (classValues [((3 : ℚ), 0), (5, 0), (4, 1)] 0) ∧
    sel2 (([((3 : ℚ), 0), (5, 0), (4, 1)] : List (ℚ × ℕ)).foldl
        (fun a p => t_push a p.1 p.2) t_init).m2 0
        / (((sel2 (([((3 : ℚ), 0), (5, 0), (4, 1)] : List (ℚ × ℕ)).foldl
            (fun a p => t_push a p.1 p.2) t_init).n 0 : ℕ) : ℚ) - 1)
        = twoPassM2 (classValues [((3 : ℚ), 0), (5, 0), (4, 1)] 0)
          / (((classValues [((3 : ℚ), 0), (5, 0), (4, 1)] 0).length : ℚ) - 1) :=
  welford_two_pass_equiv [((3 : ℚ), 0), (5, 0), (4, 1)] 0 (by decide) (by decide)

lemma getD_set_self {α : Type} (l : List α) (i : ℕ) (a d : α)
    (h : i < l.length) : (l.set i a).getD i d = a := by
  induction l generalizing i with
  | nil => simp at h
  | cons b t ih =>
    cases i with
    | zero => simp
    | succ j =>
      have hj : j < t.length := by simpa using h
      simpa using ih j hj

lemma getD_set_ne {α : Type} (l : List α) (i j : ℕ) (a d : α)
    (h : i ≠ j) : (l.set i a).getD j d = l.getD j d := by
  induction l generalizing i j with
  | nil => simp
  | cons b t ih =>
    cases i with
    | zero =>
      cases j with
      | zero => exact absurd rfl h
      | succ m => simp
    | succ m =>
      cases j with
      | zero => simp
      | succ r =>
        have : m ≠ r := fun e => h (by rw [e])
        simpa using ih m r this

lemma crop_fold_length (P : ℕ) (percentiles : List ℤ) (c : List ttest_ctx)
    (d : ℤ) (k : ℕ) : (crop_fold P percentiles c d k).length = c.length := by
  induction P with
  | zero => simp [crop_fold]
  | succ m ih =>
    unfold crop_fold
    rw [List.range_succ, List.foldl_append, List.foldl_cons, List.foldl_nil]
    unfold crop_fold at ih
    by_cases hd : d < percentiles.getD m 0
    · rw [if_pos hd, List.length_set, ih]
    · rw [if_neg hd, ih]

lemma crop_fold_getD (P : ℕ) (percentiles : List ℤ) (c : List ttest_ctx)
    (d : ℤ) (k : ℕ) (hlen : P + 1 < c.length) (i : ℕ) :
    (crop_fold P percentiles c d k).getD i t_init
      = if 1 ≤ i ∧ i ≤ P ∧ d < percentiles.getD (i - 1) 0 then
          t_push (c.getD i t_init) (d : ℚ) k
        else c.getD i t_init := by
  revert hlen
  induction P generalizing i with
  | zero =>
    intro hlen
    rw [if_neg (by rintro ⟨h1, h2, -⟩; omega)]
    simp [crop_fold]
  | succ m ih =>
    intro hlen
    have hm : m + 1 < c.length := by omega
    unfold crop_fold
    rw [List.range_succ, List.foldl_append, List.foldl_cons, List.foldl_nil]
    unfold crop_fold at ih
    have hprevlen :
        (List.foldl
          (fun cs crop_index =>
            if d < percentiles.getD crop_index 0 then
              cs.set (crop_index + 1)
                (t_push (cs.getD (crop_index + 1) t_init) (d : ℚ) k)
            else cs) c (List.range m)).length = c.length :=
      crop_fold_length m percentiles c d k
    by_cases hd : d < percentiles.getD m 0
    · rw [if_pos hd]
      by_cases hi : i = m + 1
      · subst hi
        rw [getD_set_self _ _ _ _ (by rw [hprevlen]; omega)]
        rw [ih (m + 1) hm, if_neg (by rintro ⟨-, h2, -⟩; omega),
          if_pos ⟨by omega, by omega, by simpa using hd⟩]
      · rw [getD_set_ne _ _ _ _ _ (fun e => hi e.symm), ih i hm]
        by_cases hc : 1 ≤ i ∧ i ≤ m ∧ d < percentiles.getD (i - 1) 0
        · rw [if_pos hc, if_pos ⟨hc.1, by omega, hc.2.2⟩]
        · have hc2 : ¬ (1 ≤ i ∧ i ≤ m + 1 ∧ d < percentiles.getD (i - 1) 0) := by
            rintro ⟨h1, h2, h3⟩
            exact hc ⟨h1, by omega, h3⟩
          rw [if_neg hc, if_neg hc2]
    · rw [if_neg hd, ih i hm]
      by_cases hc : 1 ≤ i ∧ i ≤ m ∧ d < percentiles.getD (i - 1) 0
      · rw [if_pos hc, if_pos ⟨hc.1, by omega, hc.2.2⟩]
      · have hc2 : ¬ (1 ≤ i ∧ i ≤ m + 1 ∧ d < percentiles.getD (i - 1) 0) := by
          rintro ⟨h1, h2, h3⟩
          rcases Nat.lt_or_ge i (m + 1) with hlt | hge
          · exact hc ⟨h1, by omega, h3⟩
          · have hieq : i = m + 1 := by omega
            subst hieq
            simp only [Nat.add_sub_cancel] at h3
            exact hd h3
        rw [if_neg hc, if_neg hc2]

lemma update_one_length (P : ℕ) (perc : List ℤ) (ctxs : List ttest_ctx)
    (d : ℤ) (k : ℕ) : (update_one P perc ctxs d k).length = ctxs.length := by
  simp only [update_one]
  split_ifs <;> simp [crop_fold_length]

lemma update_one_getD (P : ℕ) (perc : List ℤ) (ctxs : List ttest_ctx)
    (d : ℤ) (k : ℕ) (hlen : P + 1 < ctxs.length) (i : ℕ) :
    (update_one P perc ctxs d k).getD i t_init
      = if d < 0 then ctxs.getD i t_init
        else if i = 0 then t_push (ctxs.getD 0 t_init) (d : ℚ) k
        else if 1 ≤ i ∧ i ≤ P ∧ d < perc.getD (i - 1) 0 then
          t_push (ctxs.getD i t_init) (d : ℚ) k
        else if i = 1 + P ∧ 10000 < (t_push (ctxs.getD 0 t_init) (d : ℚ) k).n.1 then
          t_push (ctxs.getD (1 + P) t_init)
            (((d : ℚ) - sel2 (t_push (ctxs.getD 0 t_init) (d : ℚ) k).mean k)
              * ((d : ℚ) - sel2 (t_push (ctxs.getD 0 t_init) (d : ℚ) k).mean k)) k
        else ctxs.getD i t_init := by
  simp only [update_one]
  by_cases hd : d < 0
  · rw [if_pos hd, if_pos hd]
  · rw [if_neg hd, if_neg hd]
    have hlen1 :
        P + 1 < (ctxs.set 0 (t_push (ctxs.getD 0 t_init) (d : ℚ) k)).length := by
      rw [List.length_set]
      exact hlen
    have hraw :
        (crop_fold P perc (ctxs.set 0 (t_push (ctxs.getD 0 t_init) (d : ℚ) k))
            d k).getD 0 t_init
          = t_push (ctxs.getD 0 t_init) (d : ℚ) k := by
      rw [crop_fold_getD P perc _ d k hlen1 0,
        if_neg (by rintro ⟨h1, -, -⟩; omega),
        getD_set_self _ _ _ _ (by omega)]
    have hcflen :
        (crop_fold P perc (ctxs.set 0 (t_push (ctxs.getD 0 t_init) (d : ℚ) k))
            d k).length = ctxs.length := by
      rw [crop_fold_length, List.length_set]
    have hcfP :
        (crop_fold P perc (ctxs.set 0 (t_push (ctxs.getD 0 t_init) (d : ℚ) k))
            d k).getD (1 + P) t_init
          = ctxs.getD (1 + P) t_init := by
      rw [crop_fold_getD P perc _ d k hlen1 (1 + P),
        if_neg (by rintro ⟨-, h2, -⟩; omega),
        getD_set_ne _ _ _ _ _ (by omega)]
    rw [hraw]
    by_cases hso : 10000 < (t_push (ctxs.getD 0 t_init) (d : ℚ) k).n.1
    · rw [if_pos hso]
      by_cases hi0 : i = 0
      · subst hi0
        rw [getD_set_ne _ _ _ _ _ (by omega), hraw, if_pos rfl]
      · rw [if_neg hi0]
        by_cases hiP : i = 1 + P
        · subst hiP
          rw [getD_set_self _ _ _ _ (by rw [hcflen]; omega), hcfP,
            if_neg (by rintro ⟨-, h2, -⟩; omega), if_pos ⟨rfl, hso⟩]
        · rw [getD_set_ne _ _ _ _ _ (fun e => hiP e.symm),
            crop_fold_getD P perc _ d k hlen1 i]
          by_cases hc : 1 ≤ i ∧ i ≤ P ∧ d < perc.getD (i - 1) 0
          · rw [if_pos hc, if_pos hc, getD_set_ne _ _ _ _ _ (by omega)]
          · rw [if_neg hc, if_neg hc, getD_set_ne _ _ _ _ _ (fun e => hi0 e.symm),
              if_neg (by rintro ⟨he, -⟩; exact hiP he)]
    · rw [if_neg hso, crop_fold_getD P perc _ d k hlen1 i]
      by_cases hi0 : i = 0
      · subst hi0
        rw [if_neg (by rintro ⟨h1, -, -⟩; omega),
          getD_set_self _ _ _ _ (by omega), if_pos rfl]
      · rw [if_neg hi0]
        by_cases hc : 1 ≤ i ∧ i ≤ P ∧ d < perc.getD (i - 1) 0
        · rw [if_pos hc, if_pos hc, getD_set_ne _ _ _ _ _ (fun e => hi0 e.symm)]
        · rw [if_neg hc, if_neg hc, getD_set_ne _ _ _ _ _ (fun e => hi0 e.symm),
            if_neg (by rintro ⟨-, h⟩; exact hso h)]

lemma foldl_update_index_eq_pairs (P : ℕ) (perc : List ℤ)
    (exec : List ℤ) (classes : List ℕ) (m : ℕ) :
    ∀ (s : ℕ) (ctxs : List ttest_ctx),
      s + m ≤ exec.length → s + m ≤ classes.length →
      (List.range' s m).foldl
          (fun cs i => update_one P perc cs (exec.getD i 0) (classes.getD i 0))
          ctxs
        = (((exec.zip classes).drop s).take m).foldl
            (fun cs p => update_one P perc cs p.1 p.2) ctxs := by
  induction m with
  | zero =>
    intro s ctxs _ _
    simp
  | succ m ih =>
    intro s ctxs h1 h2
    have hs1 : s < exec.length := by omega
    have hs2 : s < classes.length := by omega
    have hz : s < (exec.zip classes).length := by
      rw [List.length_zip]
      exact lt_min hs1 hs2
    rw [List.range'_succ, List.foldl_cons, List.drop_eq_getElem_cons hz,
      List.take_succ_cons, List.foldl_cons, List.getElem_zip,
      List.getD_eq_getElem exec 0 hs1, List.getD_eq_getElem classes 0 hs2]
    exact ih (s + 1) _ (by omega) (by omega)

lemma update_statistics_eq_pairs (P : ℕ) (perc : List ℤ)
    (ctxs : List ttest_ctx) (exec : List ℤ) (classes : List ℕ) (N : ℕ)
    (hexec : N - 1 ≤ exec.length) (hcls : N - 1 ≤ classes.length) :
    update_statistics P perc ctxs exec classes N
      = (((exec.zip classes).drop 10).take (N - 1 - 10)).foldl
          (fun cs p => update_one P perc cs p.1 p.2) ctxs := by
  unfold update_statistics
  rcases le_or_lt N 11 with hN | hN
  · have h0 : N - 1 - 10 = 0 := by omega
    rw [h0]
    simp
  · exact foldl_update_index_eq_pairs P perc exec classes (N - 1 - 10) 10 ctxs
      (by omega) (by omega)

lemma pairs_fold_raw (P : ℕ) (perc : List ℤ) (pairs : List (ℤ × ℕ)) :
    ∀ (ctxs : List ttest_ctx), P + 1 < ctxs.length →
      (pairs.foldl (fun cs p => update_one P perc cs p.1 p.2) ctxs).getD 0 t_init
        = (pairs.filter (fun p => 0 ≤ p.1)).foldl
            (fun c p => t_push c (p.1 : ℚ) p.2) (ctxs.getD 0 t_init) := by
  induction pairs with
  | nil =>
    intro ctxs _
    simp
  | cons p rest ih =>
    intro ctxs hlen
    have hlen1 : P + 1 < (update_one P perc ctxs p.1 p.2).length := by
      rw [update_one_length]
      exact hlen
    rw [List.foldl_cons, List.filter_cons, ih _ hlen1,
      update_one_getD P perc ctxs p.1 p.2 hlen 0]
    by_cases hp : p.1 < 0
    · rw [if_pos hp, if_neg (by simp only [decide_eq_true_eq]; omega)]
    · rw [if_neg hp, if_pos rfl,
        if_pos (by simp only [decide_eq_true_eq]; omega), List.foldl_cons]

lemma pairs_fold_crop (P : ℕ) (perc : List ℤ) (pairs : List (ℤ × ℕ))
    (j : ℕ) (hj : j < P) :
    ∀ (ctxs : List ttest_ctx), P + 1 < ctxs.length →
      (pairs.foldl (fun cs p => update_one P perc cs p.1 p.2) ctxs).getD
          (j + 1) t_init
        = (pairs.filter (fun p => 0 ≤ p.1 ∧ p.1 < perc.getD j 0)).foldl
            (fun c p => t_push c (p.1 : ℚ) p.2) (ctxs.getD (j + 1) t_init) := by
  induction pairs with
  | nil =>
    intro ctxs _
    simp
  | cons p rest ih =>
    intro ctxs hlen
    have hlen1 : P + 1 < (update_one P perc ctxs p.1 p.2).length := by
      rw [update_one_length]
      exact hlen
    rw [List.foldl_cons, List.filter_cons, ih _ hlen1,
      update_one_getD P perc ctxs p.1 p.2 hlen (j + 1)]
    by_cases hp : p.1 < 0
    · rw [if_pos hp,
        if_neg (by simp only [decide_eq_true_eq]; rintro ⟨h, -⟩; omega)]
    · rw [if_neg hp, if_neg (by omega)]
      by_cases hcrop : p.1 < perc.getD j 0
      · rw [if_pos ⟨by omega, by omega, by simpa using hcrop⟩,
          if_pos (by simp only [decide_eq_true_eq]; exact ⟨by omega, hcrop⟩),
          List.foldl_cons]
      · rw [if_neg (by
            rintro ⟨-, -, h3⟩
            rw [Nat.add_sub_cancel] at h3
            exact hcrop h3),
          if_neg (by rintro ⟨he, -⟩; omega),
          if_neg (by simp only [decide_eq_true_eq]; rintro ⟨-, h⟩; exact hcrop h)]

/-- C6: for every accumulating-phase batch the statistics updater processes
exactly the measurement indices 10 through N - 2 (the first 10 are
discarded as warm-up), silently skips every negative delta, pushes every
retained delta into the raw accumulator at index 0 unconditionally, and
pushes it into cropped accumulator j + 1 exactly for the indices j whose
threshold exceeds the delta. -/
theorem update_statistics_retained_pushes
    (P : ℕ) (perc : List ℤ) (ctxs : List ttest_ctx) (exec : List ℤ)
    (classes : List ℕ) (N : ℕ)
    (hexec : N - 1 ≤ exec.length) (hcls : N - 1 ≤ classes.length)
    (hlen : ctxs.length = P + 2) :
    (update_statistics P perc ctxs exec classes N).getD 0 t_init
      = ((((exec.zip classes).drop 10).take (N - 1 - 10)).filter
          (fun p => 0 ≤ p.1)).foldl
          (fun c p => t_push c (p.1 : ℚ) p.2) (ctxs.getD 0 t_init)
    ∧ ∀ j < P,
      (update_statistics P perc ctxs exec classes N).getD (j + 1) t_init
        = ((((exec.zip classes).drop 10).take (N - 1 - 10)).filter
            (fun p => 0 ≤ p.1 ∧ p.1 < perc.getD j 0)).foldl
            (fun c p => t_push c (p.1 : ℚ) p.2) (ctxs.getD (j + 1) t_init) := by
  have hl : P + 1 < ctxs.length := by omega
  rw [update_statistics_eq_pairs P perc ctxs exec classes N hexec hcls]
  exact ⟨pairs_fold_raw P perc _ ctxs hl,
    fun j hj => pairs_fold_crop P perc _ j hj ctxs hl⟩

/-- Witness for update_statistics_retained_pushes at a concrete batch. -/
theorem update_statistics_retained_pushes_witness :
    (update_statistics 1 [7] (List.replicate 3 t_init)
        (List.replicate 15 (5 : ℤ) ++ [0]) (List.replicate 16 (0 : ℕ)) 16).getD 0 t_init
      = (((((List.replicate 15 (5 : ℤ) ++ [0]).zip
            (List.replicate 16 (0 : ℕ))).drop 10).take (16 - 1 - 10)).filter
          (fun p : ℤ × ℕ => 0 ≤ p.1)).foldl
          (fun c (p : ℤ × ℕ) => t_push c (p.1 : ℚ) p.2)
          ((List.replicate 3 t_init).getD 0 t_init)
    ∧ ∀ j < 1,
      (update_statistics 1 [7] (List.replicate 3 t_init)
          (List.replicate 15 (5 : ℤ) ++ [0]) (List.replicate 16 (0 : ℕ)) 16).getD
          (j + 1) t_init
        = (((((List.replicate 15 (5 : ℤ) ++ [0]).zip
              (List.replicate 16 (0 : ℕ))).drop 10).take (16 - 1 - 10)).filter
            (fun p : ℤ × ℕ => 0 ≤ p.1 ∧ p.1 < List.getD [7] j 0)).foldl
            (fun c (p : ℤ × ℕ) => t_push c (p.1 : ℚ) p.2)
            ((List.replicate 3 t_init).getD (j + 1) t_init) :=
  update_statistics_retained_pushes 1 [7] (List.replicate 3 t_init)
    (List.replicate 15 (5 : ℤ) ++ [0]) (List.replicate 16 (0 : ℕ)) 16
    (by simp) (by simp) (by simp)

lemma t_push_n1 (c : ttest_ctx) (x : ℚ) (k : ℕ) :
    (t_push c x k).n.1 = if k = 0 then c.n.1 + 1 else c.n.1 := by
  by_cases h : k = 0 <;> simp [t_push, upd2, sel2, h]

lemma t_push_n2 (c : ttest_ctx) (x : ℚ) (k : ℕ) :
    (t_push c x k).n.2 = if k = 0 then c.n.2 else c.n.2 + 1 := by
  by_cases h : k = 0 <;> simp [t_push, upd2, sel2, h]

lemma update_one_raw_n1_mono (P : ℕ) (perc : List ℤ) (ctxs : List ttest_ctx)
    (d : ℤ) (k : ℕ) (hlen : P + 1 < ctxs.length) :
    (ctxs.getD 0 t_init).n.1
      ≤ ((update_one P perc ctxs d k).getD 0 t_init).n.1 := by
  rw [update_one_getD P perc ctxs d k hlen 0]
  by_cases hd : d < 0
  · rw [if_pos hd]
  · rw [if_neg hd, if_pos rfl, t_push_n1]
    split_ifs <;> omega

lemma pairs_fold_raw_n1_mono (P : ℕ) (perc : List ℤ)
    (pairs : List (ℤ × ℕ)) :
    ∀ (ctxs : List ttest_ctx), P + 1 < ctxs.length →
      (ctxs.getD 0 t_init).n.1
        ≤ ((pairs.foldl (fun cs p => update_one P perc cs p.1 p.2)
            ctxs).getD 0 t_init).n.1 := by
  induction pairs with
  | nil =>
    intro ctxs _
    exact le_refl _
  | cons p rest ih =>
    intro ctxs hlen
    have hlen1 : P + 1 < (update_one P perc ctxs p.1 p.2).length := by
      rw [update_one_length]
      exact hlen
    rw [List.foldl_cons]
    exact le_trans (update_one_raw_n1_mono P perc ctxs p.1 p.2 hlen)
      (ih _ hlen1)

lemma pairs_fold_so_unchanged (P : ℕ) (perc : List ℤ)
    (pairs : List (ℤ × ℕ)) :
    ∀ (ctxs : List ttest_ctx), P + 1 < ctxs.length →
      (((pairs.foldl (fun cs p => update_one P perc cs p.1 p.2)
          ctxs).getD 0 t_init).n.1 ≤ 10000) →
      (pairs.foldl (fun cs p => update_one P perc cs p.1 p.2)
          ctxs).getD (1 + P) t_init = ctxs.getD (1 + P) t_init := by
  induction pairs with
  | nil =>
    intro ctxs _ _
    rfl
  | cons p rest ih =>
    intro ctxs hlen hfin
    rw [List.foldl_cons] at hfin ⊢
    have hlen1 : P + 1 < (update_one P perc ctxs p.1 p.2).length := by
      rw [update_one_length]
      exact hlen
    rw [ih _ hlen1 hfin]
    have hpost : ((update_one P perc ctxs p.1 p.2).getD 0 t_init).n.1 ≤ 10000 :=
      le_trans (pairs_fold_raw_n1_mono P perc rest _ hlen1) hfin
    rw [update_one_getD P perc ctxs p.1 p.2 hlen (1 + P)]
    by_cases hd : p.1 < 0
    · rw [if_pos hd]
    · have hraw0 : (update_one P perc ctxs p.1 p.2).getD 0 t_init
          = t_push (ctxs.getD 0 t_init) (p.1 : ℚ) p.2 := by
        rw [update_one_getD P perc ctxs p.1 p.2 hlen 0, if_neg hd, if_pos rfl]
      rw [hraw0] at hpost
      rw [if_neg hd, if_neg (by omega), if_neg (by rintro ⟨-, h2, -⟩; omega),
        if_neg (by rintro ⟨-, hgt⟩; omega)]

/-- C5 (amended): during statistics update no value is pushed into the
second-order accumulator until the raw accumulator count for class 0
specifically (not either class) exceeds 10000; once a retained delta makes
the post-push class-0 raw count exceed 10000, that iteration also pushes
the squared centered delta into the second-order accumulator at index
1 + P. -/
theorem second_order_gate_class0
    (P : ℕ) (perc : List ℤ) (ctxs : List ttest_ctx) (exec : List ℤ)
    (classes : List ℕ) (N : ℕ)
    (hexec : N - 1 ≤ exec.length) (hcls : N - 1 ≤ classes.length)
    (hlen : ctxs.length = P + 2) :
    ((((update_statistics P perc ctxs exec classes N).getD 0 t_init).n.1
        ≤ 10000) →
      (update_statistics P perc ctxs exec classes N).getD (1 + P) t_init
        = ctxs.getD (1 + P) t_init)
    ∧ ∀ (d : ℤ) (k : ℕ), 0 ≤ d →
        10000 < (t_push (ctxs.getD 0 t_init) (d : ℚ) k).n.1 →
        (update_one P perc ctxs d k).getD (1 + P) t_init
          = t_push (ctxs.getD (1 + P) t_init)
              (((d : ℚ) - sel2 (t_push (ctxs.getD 0 t_init) (d : ℚ) k).mean k)
                * ((d : ℚ)
                  - sel2 (t_push (ctxs.getD 0 t_init) (d : ℚ) k).mean k)) k := by
  have hl : P + 1 < ctxs.length := by omega
  constructor
  · intro hfin
    rw [update_statistics_eq_pairs P perc ctxs exec classes N hexec hcls] at hfin ⊢
    exact pairs_fold_so_unchanged P perc _ ctxs hl hfin
  · intro d k hd hso
    rw [update_one_getD P perc ctxs d k hl (1 + P), if_neg (by omega),
      if_neg (by omega), if_neg (by rintro ⟨-, h2, -⟩; omega),
      if_pos ⟨rfl, hso⟩]

/-- Witness for second_order_gate_class0 at a concrete state. -/
theorem second_order_gate_class0_witness :
    ((((update_statistics 1 [7]
          [{ mean := (5, 0), m2 := (0, 0), n := (10000, 0) }, t_init, t_init]
          [] [] 0).getD 0 t_init).n.1 ≤ 10000) →
      (update_statistics 1 [7]
          [{ mean := (5, 0), m2 := (0, 0), n := (10000, 0) }, t_init, t_init]
          [] [] 0).getD (1 + 1) t_init
        = List.getD
            [{ mean := (5, 0), m2 := (0, 0), n := (10000, 0) }, t_init, t_init]
            (1 + 1) t_init)
    ∧ ∀ (d : ℤ) (k : ℕ), 0 ≤ d →
        10000 < (t_push (List.getD
            [{ mean := (5, 0), m2 := (0, 0), n := (10000, 0) }, t_init, t_init]
            0 t_init) (d : ℚ) k).n.1 →
        (update_one 1 [7]
            [{ mean := (5, 0), m2 := (0, 0), n := (10000, 0) }, t_init, t_init]
            d k).getD (1 + 1) t_init
          = t_push (List.getD
              [{ mean := (5, 0), m2 := (0, 0), n := (10000, 0) }, t_init, t_init]
              (1 + 1) t_init)
              (((d : ℚ) - sel2 (t_push (List.getD
                  [{ mean := (5, 0), m2 := (0, 0), n := (10000, 0) }, t_init,
                    t_init] 0 t_init) (d : ℚ) k).mean k)
                * ((d : ℚ) - sel2 (t_push (List.getD
                  [{ mean := (5, 0), m2 := (0, 0), n := (10000, 0) }, t_init,
                    t_init] 0 t_init) (d : ℚ) k).mean k)) k :=
  second_order_gate_class0 1 [7]
    [{ mean := (5, 0), m2 := (0, 0), n := (10000, 0) }, t_init, t_init]
    [] [] 0 (by decide) (by decide) (by decide)

lemma getD_replicate {α : Type} (n i : ℕ) (a : α) :
    (List.replicate n a).getD i a = a := by
  induction n generalizing i with
  | zero => simp
  | succ m ih =>
    cases i with
    | zero => simp
    | succ j =>
      rw [List.replicate_succ, List.getD_cons_succ]
      exact ih j

lemma update_one_dom (P : ℕ) (perc : List ℤ) (ctxs : List ttest_ctx)
    (d : ℤ) (k : ℕ) (hlen : P + 1 < ctxs.length) (hdom : Dom ctxs) :
    Dom (update_one P perc ctxs d k) := by
  intro i
  rw [update_one_getD P perc ctxs d k hlen i,
    update_one_getD P perc ctxs d k hlen 0]
  by_cases hd : d < 0
  · rw [if_pos hd, if_pos hd]
    exact hdom i
  · rw [if_neg hd, if_neg hd, if_pos rfl]
    by_cases hi0 : i = 0
    · subst hi0
      rw [if_pos rfl]
    · rw [if_neg hi0]
      have hb := hdom i
      by_cases hc : 1 ≤ i ∧ i ≤ P ∧ d < perc.getD (i - 1) 0
      · rw [if_pos hc, t_push_n1, t_push_n1]
        split_ifs <;> omega
      · rw [if_neg hc]
        by_cases hs : i = 1 + P
            ∧ 10000 < (t_push (ctxs.getD 0 t_init) (d : ℚ) k).n.1
        · rw [if_pos hs]
          obtain ⟨hiP, -⟩ := hs
          rw [← hiP, t_push_n1, t_push_n1]
          split_ifs <;> omega
        · rw [if_neg hs, t_push_n1]
          split_ifs <;> omega

lemma pairs_fold_dom (P : ℕ) (perc : List ℤ) (pairs : List (ℤ × ℕ)) :
    ∀ (ctxs : List ttest_ctx), P + 1 < ctxs.length → Dom ctxs →
      Dom (pairs.foldl (fun cs p => update_one P perc cs p.1 p.2) ctxs) := by
  induction pairs with
  | nil =>
    intro ctxs _ h
    exact h
  | cons p rest ih =>
    intro ctxs hlen hdom
    rw [List.foldl_cons]
    exact ih _ (by rw [update_one_length]; exact hlen)
      (update_one_dom P perc ctxs p.1 p.2 hlen hdom)

lemma update_statistics_length (P : ℕ) (perc : List ℤ)
    (ctxs : List ttest_ctx) (exec : List ℤ) (classes : List ℕ) (N : ℕ) :
    (update_statistics P perc ctxs exec classes N).length = ctxs.length := by
  unfold update_statistics
  generalize List.range' 10 (N - 1 - 10) = L
  induction L generalizing ctxs with
  | nil => rfl
  | cons a l ih => rw [List.foldl_cons, ih, update_one_length]

lemma dudect_main_calib (N P enough : ℕ) (st : dudect_ctx)
    (deltas : List ℤ) (classes : List ℕ)
    (h : st.percentiles.getD (P - 1) 0 = 0) :
    dudect_main N P enough st deltas classes
      = ({ ttest_ctxs := st.ttest_ctxs,
           percentiles := prepare_percentiles
             (deltas ++ [st.exec_times.getD (N - 1) 0]) N P,
           exec_times := sortInt (deltas ++ [st.exec_times.getD (N - 1) 0]) },
         dudect_state_t.DUDECT_NOT_ENOUGHT_MEASUREMENTS) := by
  simp only [dudect_main]
  rw [if_pos h]

lemma dudect_main_accum (N P enough : ℕ) (st : dudect_ctx)
    (deltas : List ℤ) (classes : List ℕ)
    (h : ¬ st.percentiles.getD (P - 1) 0 = 0) :
    dudect_main N P enough st deltas classes
      = ({ ttest_ctxs := update_statistics P st.percentiles st.ttest_ctxs
             (deltas ++ [st.exec_times.getD (N - 1) 0]) classes N,
           percentiles := st.percentiles,
           exec_times := deltas ++ [st.exec_times.getD (N - 1) 0] },
         report enough (update_statistics P st.percentiles st.ttest_ctxs
           (deltas ++ [st.exec_times.getD (N - 1) 0]) classes N)) := by
  simp only [dudect_main]
  rw [if_neg h]

lemma reachable_inv {N P enough : ℕ} {st : dudect_ctx}
    (h : Reachable N P enough st) :
    st.ttest_ctxs.length = P + 2 ∧ st.percentiles.length = P
      ∧ Dom st.ttest_ctxs := by
  induction h with
  | init =>
    refine ⟨by simp [dudect_init], by simp [dudect_init], ?_⟩
    intro i
    simp [dudect_init, getD_replicate]
  | step st deltas classes hr h1 h2 h3 ih =>
    obtain ⟨hl, hp, hdom⟩ := ih
    by_cases hft : st.percentiles.getD (P - 1) 0 = 0
    · rw [dudect_main_calib N P enough st deltas classes hft]
      exact ⟨hl, by simp [prepare_percentiles], hdom⟩
    · rw [dudect_main_accum N P enough st deltas classes hft]
      refine ⟨?_, hp, ?_⟩
      · rw [update_statistics_length]
        exact hl
      · have hexec : N - 1
            ≤ (deltas ++ [st.exec_times.getD (N - 1) 0]).length := by
          simp [h1]
        have hcls2 : N - 1 ≤ classes.length := by omega
        rw [update_statistics_eq_pairs P st.percentiles st.ttest_ctxs _
          classes N hexec hcls2]
        exact pairs_fold_dom P st.percentiles _ st.ttest_ctxs (by omega) hdom

lemma max_test_fold_spec (enough : ℕ) (ctxs : List ttest_ctx) (L : List ℕ) :
    ∀ (r : ℕ) (m : ℝ),
      m ≤ (max_test_fold enough ctxs (r, m) L).2
      ∧ (∀ i ∈ L, enough < (ctxs.getD i t_init).n.1 →
          |t_compute (ctxs.getD i t_init)|
            ≤ (max_test_fold enough ctxs (r, m) L).2)
      ∧ (max_test_fold enough ctxs (r, m) L = (r, m)
          ∨ ((max_test_fold enough ctxs (r, m) L).1 ∈ L
            ∧ enough < (ctxs.getD (max_test_fold enough ctxs (r, m) L).1
                t_init).n.1
            ∧ |t_compute (ctxs.getD (max_test_fold enough ctxs (r, m) L).1
                t_init)| = (max_test_fold enough ctxs (r, m) L).2
            ∧ m < (max_test_fold enough ctxs (r, m) L).2)) := by
  induction L with
  | nil =>
    intro r m
    exact ⟨le_refl _, by simp, Or.inl rfl⟩
  | cons a l ih =>
    intro r m
    by_cases hg : enough < (ctxs.getD a t_init).n.1
    · by_cases hv : m < |t_compute (ctxs.getD a t_init)|
      · have hstep : max_test_fold enough ctxs (r, m) (a :: l)
            = max_test_fold enough ctxs
                (a, |t_compute (ctxs.getD a t_init)|) l := by
          simp only [max_test_fold, List.foldl_cons]
          rw [if_pos hg, if_pos hv]
        rw [hstep]
        obtain ⟨ih1, ih2, ih3⟩ := ih a (|t_compute (ctxs.getD a t_init)|)
        refine ⟨le_trans (le_of_lt hv) ih1, ?_, ?_⟩
        · intro i hi hgi
          rcases List.mem_cons.mp hi with rfl | hil
          · exact ih1
          · exact ih2 i hil hgi
        · rcases ih3 with heq | ⟨hm1, hm2, hm3, hm4⟩
          · right
            rw [heq]
            exact ⟨List.mem_cons_self a l, hg, rfl, hv⟩
          · right
            exact ⟨List.mem_cons_of_mem a hm1, hm2, hm3, lt_trans hv hm4⟩
      · have hstep : max_test_fold enough ctxs (r, m) (a :: l)
            = max_test_fold enough ctxs (r, m) l := by
          simp only [max_test_fold, List.foldl_cons]
          rw [if_pos hg, if_neg hv]
        rw [hstep]
        obtain ⟨ih1, ih2, ih3⟩ := ih r m
        refine ⟨ih1, ?_, ?_⟩
        · intro i hi hgi
          rcases List.mem_cons.mp hi with rfl | hil
          · exact le_trans (not_lt.mp hv) ih1
          · exact ih2 i hil hgi
        · rcases ih3 with heq | ⟨hm1, hm2, hm3, hm4⟩
          · exact Or.inl heq
          · exact Or.inr ⟨List.mem_cons_of_mem a hm1, hm2, hm3, hm4⟩
    · have hstep : max_test_fold enough ctxs (r, m) (a :: l)
          = max_test_fold enough ctxs (r, m) l := by
        simp only [max_test_fold, List.foldl_cons]
        rw [if_neg hg]
      rw [hstep]
      obtain ⟨ih1, ih2, ih3⟩ := ih r m
      refine ⟨ih1, ?_, ?_⟩
      · intro i hi hgi
        rcases List.mem_cons.mp hi with rfl | hil
        · exact absurd hgi hg
        · exact ih2 i hil hgi
      · rcases ih3 with heq | ⟨hm1, hm2, hm3, hm4⟩
        · exact Or.inl heq
        · exact Or.inr ⟨List.mem_cons_of_mem a hm1, hm2, hm3, hm4⟩

lemma max_test_spec_of_gate (enough : ℕ) (ctxs : List ttest_ctx)
    (hdom : Dom ctxs)
    (hex : ∃ i, i < ctxs.length ∧ enough < (ctxs.getD i t_init).n.1) :
    enough < (ctxs.getD (max_test enough ctxs) t_init).n.1
    ∧ ∀ i < ctxs.length, enough < (ctxs.getD i t_init).n.1 →
        |t_compute (ctxs.getD i t_init)|
          ≤ |t_compute (ctxs.getD (max_test enough ctxs) t_init)| := by
  obtain ⟨j, hj, hgj⟩ := hex
  have h0 : enough < (ctxs.getD 0 t_init).n.1 := lt_of_lt_of_le hgj (hdom j)
  obtain ⟨h1spec, h2spec, h3spec⟩ :=
    max_test_fold_spec enough ctxs (List.range ctxs.length) 0 0
  unfold max_test
  rcases h3spec with heq | ⟨hm1, hm2, hm3, hm4⟩
  · constructor
    · rw [heq]
      exact h0
    · intro i hi hgi
      have hle := h2spec i (List.mem_range.mpr hi) hgi
      rw [heq] at hle ⊢
      exact le_trans hle (abs_nonneg _)
  · constructor
    · exact hm2
    · intro i hi hgi
      rw [hm3]
      exact h2spec i (List.mem_range.mpr hi) hgi

lemma max_test_no_gate (enough : ℕ) (ctxs : List ttest_ctx)
    (h : ∀ i < ctxs.length, (ctxs.getD i t_init).n.1 ≤ enough) :
    max_test enough ctxs = 0 := by
  obtain ⟨-, -, h3spec⟩ :=
    max_test_fold_spec enough ctxs (List.range ctxs.length) 0 0
  unfold max_test
  rcases h3spec with heq | ⟨hm1, hm2, -, -⟩
  · rw [heq]
  · exact absurd hm2 (not_lt.mpr (h _ (List.mem_range.mp hm1)))

lemma report_not_enough_iff (enough : ℕ) (ctxs : List ttest_ctx) :
    (report enough ctxs = dudect_state_t.DUDECT_NOT_ENOUGHT_MEASUREMENTS)
      ↔ (ctxs.getD (max_test enough ctxs) t_init).n.1
          + (ctxs.getD (max_test enough ctxs) t_init).n.2 < enough := by
  simp only [report]
  by_cases h : ((ctxs.getD (max_test enough ctxs) t_init).n.1 : ℝ)
      + ((ctxs.getD (max_test enough ctxs) t_init).n.2 : ℝ) < (enough : ℝ)
  · rw [if_pos h]
    constructor
    · intro _
      exact_mod_cast h
    · intro _
      rfl
  · rw [if_neg h]
    constructor
    · intro hres
      split_ifs at hres
    · intro hlt
      exact absurd (by exact_mod_cast hlt) h

lemma report_of_gate (enough : ℕ) (ctxs : List ttest_ctx)
    (hg : enough < (ctxs.getD (max_test enough ctxs) t_init).n.1) :
    report enough ctxs
      = if (t_threshold_bananas : ℝ)
            < |t_compute (ctxs.getD (max_test enough ctxs) t_init)| then
          dudect_state_t.DUDECT_LEAKAGE_FOUND
        else if (t_threshold_moderate : ℝ)
            < |t_compute (ctxs.getD (max_test enough ctxs) t_init)| then
          dudect_state_t.DUDECT_LEAKAGE_FOUND
        else
          dudect_state_t.DUDECT_NO_LEAKAGE_EVIDENCE_YET := by
  simp only [report]
  have h1 : (enough : ℝ)
      < ((ctxs.getD (max_test enough ctxs) t_init).n.1 : ℝ) := by
    exact_mod_cast hg
  have h2 : (0 : ℝ) ≤ ((ctxs.getD (max_test enough ctxs) t_init).n.2 : ℝ) :=
    Nat.cast_nonneg _
  rw [if_neg (not_lt.mpr (by linarith))]

/-- C1: in every accumulating-phase step on a reachable state in which at
least one accumulator meets the enough-measurements gate, the selected
accumulator meets the gate, its absolute t statistic is maximal among all
gate-meeting accumulators, and the verdict of the step is leakage-found
exactly when that maximal absolute t statistic exceeds 500 (overwhelming)
or 10 (probable), and no-leakage-evidence-yet otherwise.  The t statistic
is the exact-arithmetic value; C doubles can differ only by producing a
NaN or infinity in the degenerate zero-variance cases. -/
theorem step_with_gate_classifies
    (N P enough : ℕ) (st : dudect_ctx) (deltas : List ℤ) (classes : List ℕ)
    (hr : Reachable N P enough st)
    (h1 : deltas.length = N - 1) (h2 : classes.length = N)
    (hacc : st.percentiles.getD (P - 1) 0 ≠ 0)
    (hex : ∃ i,
      i < (dudect_main N P enough st deltas classes).1.ttest_ctxs.length
      ∧ enough < ((dudect_main N P enough st deltas
          classes).1.ttest_ctxs.getD i t_init).n.1) :
    (enough < ((dudect_main N P enough st deltas classes).1.ttest_ctxs.getD
        (max_test enough
          (dudect_main N P enough st deltas classes).1.ttest_ctxs)
        t_init).n.1)
    ∧ (∀ i < (dudect_main N P enough st deltas classes).1.ttest_ctxs.length,
        enough < ((dudect_main N P enough st deltas
            classes).1.ttest_ctxs.getD i t_init).n.1 →
        |t_compute ((dudect_main N P enough st deltas
            classes).1.ttest_ctxs.getD i t_init)|
          ≤ |t_compute ((dudect_main N P enough st deltas
              classes).1.ttest_ctxs.getD
              (max_test enough
                (dudect_main N P enough st deltas classes).1.ttest_ctxs)
              t_init)|)
    ∧ (dudect_main N P enough st deltas classes).2
        = (if (t_threshold_bananas : ℝ)
              < |t_compute ((dudect_main N P enough st deltas
                  classes).1.ttest_ctxs.getD
                  (max_test enough
                    (dudect_main N P enough st deltas classes).1.ttest_ctxs)
                  t_init)| then
            dudect_state_t.DUDECT_LEAKAGE_FOUND
          else if (t_threshold_moderate : ℝ)
              < |t_compute ((dudect_main N P enough st deltas
                  classes).1.ttest_ctxs.getD
                  (max_test enough
                    (dudect_main N P enough st deltas classes).1.ttest_ctxs)
                  t_init)| then
            dudect_state_t.DUDECT_LEAKAGE_FOUND
          else
            dudect_state_t.DUDECT_NO_LEAKAGE_EVIDENCE_YET) := by
  obtain ⟨hl, hp, hdom⟩ := reachable_inv hr
  rw [dudect_main_accum N P enough st deltas classes hacc] at hex ⊢
  dsimp only at hex ⊢
  have hexec : N - 1 ≤ (deltas ++ [st.exec_times.getD (N - 1) 0]).length := by
    simp [h1]
  have hcls : N - 1 ≤ classes.length := by omega
  have hUdom : Dom (update_statistics P st.percentiles st.ttest_ctxs
      (deltas ++ [st.exec_times.getD (N - 1) 0]) classes N) := by
    rw [update_statistics_eq_pairs P st.percentiles st.ttest_ctxs _
      classes N hexec hcls]
    exact pairs_fold_dom P st.percentiles _ st.ttest_ctxs (by omega) hdom
  obtain ⟨hga, hmax⟩ := max_test_spec_of_gate enough _ hUdom hex
  exact ⟨hga, hmax, report_of_gate enough _ hga⟩

/-- C2 (amended): when no accumulator meets the class-0 gate the classifier
keeps the initial selection index 0, so it selects the raw accumulator, and
the step verdict is not-enough-measurements exactly when the total count
n0 + n1 of that raw accumulator is below the threshold; a real verdict is
returned whenever the raw total reaches the threshold even though no
class-0 count exceeds it. -/
theorem no_gate_selects_raw_total_rule (enough : ℕ) (ctxs : List ttest_ctx)
    (h : ∀ i < ctxs.length, (ctxs.getD i t_init).n.1 ≤ enough) :
    max_test enough ctxs = 0
    ∧ (report enough ctxs = dudect_state_t.DUDECT_NOT_ENOUGHT_MEASUREMENTS
        ↔ (ctxs.getD 0 t_init).n.1 + (ctxs.getD 0 t_init).n.2 < enough) := by
  have hmt := max_test_no_gate enough ctxs h
  refine ⟨hmt, ?_⟩
  rw [report_not_enough_iff, hmt]

/-- Witness for no_gate_selects_raw_total_rule at a concrete state. -/
theorem no_gate_selects_raw_total_rule_witness :
    max_test 4 (List.replicate 3 t_init) = 0
    ∧ (report 4 (List.replicate 3 t_init)
          = dudect_state_t.DUDECT_NOT_ENOUGHT_MEASUREMENTS
        ↔ ((List.replicate 3 t_init).getD 0 t_init).n.1
            + ((List.replicate 3 t_init).getD 0 t_init).n.2 < 4) :=
  no_gate_selects_raw_total_rule 4 (List.replicate 3 t_init)
    (by
      intro i hi
      simp only [List.length_replicate] at hi
      interval_cases i <;> decide)

/-- C3 (amended): the boundary of the not-enough-measurements verdict is on
the total count n0 + n1 of the selected accumulator, not on its class-0
count: with the total equal to threshold - 1 the verdict is
not-enough-measurements, and with the total equal to the threshold the step
returns a real verdict. -/
theorem verdict_boundary_total (enough : ℕ) (ctxs : List ttest_ctx)
    (hE : 1 ≤ enough) :
    ((ctxs.getD (max_test enough ctxs) t_init).n.1
        + (ctxs.getD (max_test enough ctxs) t_init).n.2 = enough - 1 →
      report enough ctxs = dudect_state_t.DUDECT_NOT_ENOUGHT_MEASUREMENTS)
    ∧ ((ctxs.getD (max_test enough ctxs) t_init).n.1
        + (ctxs.getD (max_test enough ctxs) t_init).n.2 = enough →
      report enough ctxs ≠ dudect_state_t.DUDECT_NOT_ENOUGHT_MEASUREMENTS) := by
  constructor
  · intro h
    rw [report_not_enough_iff]
    omega
  · intro h hne
    rw [report_not_enough_iff] at hne
    omega

/-- Witness for verdict_boundary_total at two concrete states sitting on
either side of the boundary: with threshold 4, a selected accumulator with
total count 2 + 1 = 3 yields not-enough-measurements, and one with total
count 2 + 2 = 4 yields a real verdict. -/
theorem verdict_boundary_total_witness :
    report 4 [({ mean := (0, 0), m2 := (0, 0), n := (2, 1) } : ttest_ctx)]
      = dudect_state_t.DUDECT_NOT_ENOUGHT_MEASUREMENTS
    ∧ report 4 [({ mean := (0, 0), m2 := (0, 0), n := (2, 2) } : ttest_ctx)]
      ≠ dudect_state_t.DUDECT_NOT_ENOUGHT_MEASUREMENTS := by
  have hmA : max_test 4
      [({ mean := (0, 0), m2 := (0, 0), n := (2, 1) } : ttest_ctx)] = 0 :=
    max_test_no_gate 4 _ (by
      intro i hi
      simp only [List.length_cons, List.length_nil] at hi
      interval_cases i
      decide)
  have hmB : max_test 4
      [({ mean := (0, 0), m2 := (0, 0), n := (2, 2) } : ttest_ctx)] = 0 :=
    max_test_no_gate 4 _ (by
      intro i hi
      simp only [List.length_cons, List.length_nil] at hi
      interval_cases i
      decide)
  constructor
  · exact (verdict_boundary_total 4
      [({ mean := (0, 0), m2 := (0, 0), n := (2, 1) } : ttest_ctx)]
      (by decide)).1 (by rw [hmA]; decide)
  · exact (verdict_boundary_total 4
      [({ mean := (0, 0), m2 := (0, 0), n := (2, 2) } : ttest_ctx)]
      (by decide)).2 (by rw [hmB]; decide)

lemma percentile_which_lt_one (P i : ℕ) : percentile_which P i < 1 := by
  unfold percentile_which
  have h : (0 : ℝ) < ((1 : ℝ) / 2) ^ ((10 * ((i : ℝ) + 1) / (P : ℝ)) : ℝ) :=
    Real.rpow_pos_of_pos (by norm_num) _
  linarith

lemma percentile_which_nonneg (P i : ℕ) : 0 ≤ percentile_which P i := by
  unfold percentile_which
  have h : ((1 : ℝ) / 2) ^ ((10 * ((i : ℝ) + 1) / (P : ℝ)) : ℝ) ≤ 1 :=
    Real.rpow_le_one (by norm_num) (by norm_num)
      (by positivity)
  linarith

lemma percentile_which_mono (P i j : ℕ) (hij : i ≤ j) :
    percentile_which P i ≤ percentile_which P j := by
  unfold percentile_which
  have he : (10 * ((i : ℝ) + 1) / (P : ℝ))
      ≤ (10 * ((j : ℝ) + 1) / (P : ℝ)) := by
    rcases Nat.eq_zero_or_pos P with hP | hP
    · subst hP
      norm_num
    · have hPpos : (0 : ℝ) < (P : ℝ) := by exact_mod_cast hP
      have hnum : 10 * ((i : ℝ) + 1) ≤ 10 * ((j : ℝ) + 1) := by
        have hijr : (i : ℝ) ≤ (j : ℝ) := by exact_mod_cast hij
        linarith
      gcongr
  have hr := Real.rpow_le_rpow_of_exponent_ge
    (by norm_num : (0 : ℝ) < 1 / 2) (by norm_num : (1 : ℝ) / 2 ≤ 1) he
  linarith

lemma array_position_lt (S : ℕ) (hS : 1 ≤ S) (w : ℝ)
    (hw0 : 0 ≤ w) (hw1 : w < 1) : array_position S w < S := by
  unfold array_position
  rw [Nat.floor_lt (mul_nonneg (Nat.cast_nonneg S) hw0)]
  have hSpos : (0 : ℝ) < (S : ℝ) := by exact_mod_cast hS
  calc (S : ℝ) * w < (S : ℝ) * 1 := by
        exact mul_lt_mul_of_pos_left hw1 hSpos
    _ = (S : ℝ) := mul_one _

/-- C10: for every calibration batch of size S at least 1 and every
percentile index i below P, the quantile 1 - 0.5 ^ (10 (i + 1) / P) lies
strictly below 1, hence the sorted-array position computed by percentile is
strictly below S and below the length of the sorted delta buffer: the
bounds assertion of percentile holds and calibration never indexes past the
end of the buffer. -/
theorem percentile_position_in_bounds (S P i : ℕ) (a : List ℤ)
    (hS : 1 ≤ S) (_hi : i < P) (hlen : a.length = S) :
    array_position S (percentile_which P i) < S
    ∧ array_position S (percentile_which P i) < (sortInt a).length := by
  have h := array_position_lt S hS (percentile_which P i)
    (percentile_which_nonneg P i) (percentile_which_lt_one P i)
  refine ⟨h, ?_⟩
  unfold sortInt
  rw [List.length_insertionSort, hlen]
  exact h

/-- Witness for percentile_position_in_bounds at concrete sizes. -/
theorem percentile_position_in_bounds_witness :
    array_position 12 (percentile_which 1 0) < 12
    ∧ array_position 12 (percentile_which 1 0)
        < (sortInt (List.replicate 12 0)).length :=
  percentile_position_in_bounds 12 1 0 (List.replicate 12 0)
    (by decide) (by decide) (by simp)

lemma sorted_getD_mono (l : List ℤ) (hs : List.Sorted (· ≤ ·) l)
    (i j : ℕ) (hij : i ≤ j) (hj : j < l.length) :
    l.getD i 0 ≤ l.getD j 0 := by
  rcases eq_or_lt_of_le hij with rfl | hlt
  · exact le_refl _
  · rw [List.getD_eq_getElem l 0 (lt_of_le_of_lt hij hj),
      List.getD_eq_getElem l 0 hj]
    exact List.pairwise_iff_getElem.mp hs i j _ _ hlt

lemma prepare_percentiles_getD (a : List ℤ) (S P i : ℕ) (hi : i < P) :
    (prepare_percentiles a S P).getD i 0
      = percentile a (percentile_which P i) S := by
  unfold prepare_percentiles
  rw [List.getD_eq_getElem _ 0 (by simpa using hi)]
  simp

lemma prepare_percentiles_mono (a : List ℤ) (S P i j : ℕ)
    (hlen : a.length = S) (hS : 1 ≤ S) (hij : i ≤ j) (hj : j < P) :
    (prepare_percentiles a S P).getD i 0
      ≤ (prepare_percentiles a S P).getD j 0 := by
  have hi : i < P := lt_of_le_of_lt hij hj
  rw [prepare_percentiles_getD a S P i hi, prepare_percentiles_getD a S P j hj]
  unfold percentile
  have hpos : array_position S (percentile_which P i)
      ≤ array_position S (percentile_which P j) :=
    Nat.floor_le_floor
      (mul_le_mul_of_nonneg_left (percentile_which_mono P i j hij)
        (Nat.cast_nonneg S))
  have hjlt : array_position S (percentile_which P j) < (sortInt a).length := by
    unfold sortInt
    rw [List.length_insertionSort, hlen]
    exact array_position_lt S hS _ (percentile_which_nonneg P j)
      (percentile_which_lt_one P j)
  exact sorted_getD_mono (sortInt a) (List.sorted_insertionSort _ a)
    _ _ hpos hjlt

/-- C9: the P thresholds produced by the percentile calibrator are
non-decreasing in index for every calibration batch of positive size, and
the ordering invariant holds for the stored threshold set in every state
reachable during the lifetime of a context. -/
theorem thresholds_nondecreasing :
    (∀ (a : List ℤ) (S P i j : ℕ), a.length = S → 1 ≤ S → i ≤ j → j < P →
      (prepare_percentiles a S P).getD i 0
        ≤ (prepare_percentiles a S P).getD j 0)
    ∧ ∀ (N P enough : ℕ) (st : dudect_ctx), 1 ≤ N →
        Reachable N P enough st →
        ∀ i j, i ≤ j → j < P →
          st.percentiles.getD i 0 ≤ st.percentiles.getD j 0 := by
  refine ⟨fun a S P i j h1 h2 h3 h4 =>
    prepare_percentiles_mono a S P i j h1 h2 h3 h4, ?_⟩
  intro N P enough st hN hr
  induction hr with
  | init =>
    intro i j hij hj
    simp only [dudect_init]
    rw [getD_replicate, getD_replicate]
  | step st deltas classes hr h1 h2 h3 ih =>
    by_cases hft : st.percentiles.getD (P - 1) 0 = 0
    · rw [dudect_main_calib N P enough st deltas classes hft]
      intro i j hij hj
      have hblen : (deltas ++ [st.exec_times.getD (N - 1) 0]).length = N := by
        simp [h1]
        omega
      exact prepare_percentiles_mono _ N P i j hblen hN hij hj
    · rw [dudect_main_accum N P enough st deltas classes hft]
      exact ih

/-- Witness for thresholds_nondecreasing at a concrete batch and state. -/
theorem thresholds_nondecreasing_witness :
    (prepare_percentiles [5, 3] 2 3).getD 0 0
      ≤ (prepare_percentiles [5, 3] 2 3).getD 2 0
    ∧ ∀ (i j : ℕ), i ≤ j → j < 1 →
      (dudect_init 12 1).percentiles.getD i 0
        ≤ (dudect_init 12 1).percentiles.getD j 0 :=
  ⟨thresholds_nondecreasing.1 [5, 3] 2 3 0 2 rfl (by decide) (by decide)
    (by decide),
   fun i j hij hj =>
     thresholds_nondecreasing.2 12 1 4 (dudect_init 12 1) (by decide)
       Reachable.init i j hij hj⟩

lemma dudect_run_frame (N P enough : ℕ) (batches : List (List ℤ × List ℕ)) :
    ∀ (st : dudect_ctx), st.percentiles.getD (P - 1) 0 ≠ 0 →
      (dudect_run N P enough st batches).percentiles = st.percentiles := by
  induction batches with
  | nil =>
    intro st _
    rfl
  | cons b rest ih =>
    intro st h
    have hstep : (dudect_main N P enough st b.1 b.2).1.percentiles
        = st.percentiles := by
      rw [dudect_main_accum N P enough st b.1 b.2 h]
    unfold dudect_run
    rw [List.foldl_cons]
    unfold dudect_run at ih
    rw [ih _ (by rw [hstep]; exact h), hstep]

/-- C4 (amended): the first step call on a freshly initialized context
performs calibration only, returning not-enough-measurements and leaving
every accumulator untouched, regardless of the batch data; and provided the
stored threshold set has a nonzero last entry, which is how the source
detects that calibration has happened, every later step call leaves the
threshold set unchanged.  A calibration batch whose computed last threshold
is 0 leaves the context in the calibration phase, and the next call
recalibrates. -/
theorem first_step_calibrates_thresholds_frozen :
    (∀ (N P enough : ℕ) (deltas : List ℤ) (classes : List ℕ),
      (dudect_main N P enough (dudect_init N P) deltas classes).2
          = dudect_state_t.DUDECT_NOT_ENOUGHT_MEASUREMENTS
      ∧ (dudect_main N P enough (dudect_init N P) deltas
          classes).1.ttest_ctxs = (dudect_init N P).ttest_ctxs)
    ∧ ∀ (N P enough : ℕ) (st : dudect_ctx)
        (batches : List (List ℤ × List ℕ)),
        st.percentiles.getD (P - 1) 0 ≠ 0 →
        (dudect_run N P enough st batches).percentiles = st.percentiles := by
  constructor
  · intro N P enough deltas classes
    have hp : (dudect_init N P).percentiles.getD (P - 1) 0 = 0 := by
      simp only [dudect_init]
      rw [getD_replicate]
    rw [dudect_main_calib N P enough (dudect_init N P) deltas classes hp]
    exact ⟨rfl, rfl⟩
  · intro N P enough st batches h
    exact dudect_run_frame N P enough batches st h

/-- Witness for first_step_calibrates_thresholds_frozen at concrete data. -/
theorem first_step_calibrates_thresholds_frozen_witness :
    ((dudect_main 12 1 4 (dudect_init 12 1) (List.replicate 11 7)
        (List.replicate 12 0)).2
        = dudect_state_t.DUDECT_NOT_ENOUGHT_MEASUREMENTS
      ∧ (dudect_main 12 1 4 (dudect_init 12 1) (List.replicate 11 7)
          (List.replicate 12 0)).1.ttest_ctxs
          = (dudect_init 12 1).ttest_ctxs)
    ∧ (dudect_run 12 1 4
        { ttest_ctxs := List.replicate 3 t_init,
          percentiles := [7],
          exec_times := List.replicate 12 0 } []).percentiles = [7] :=
  ⟨first_step_calibrates_thresholds_frozen.1 12 1 4 (List.replicate 11 7)
      (List.replicate 12 0),
   first_step_calibrates_thresholds_frozen.2 12 1 4
      { ttest_ctxs := List.replicate 3 t_init,
        percentiles := [7],
        exec_times := List.replicate 12 0 } [] (by decide)⟩

/-- C8 (amended): every t_compute invocation made inside max_test is
guarded by the enough-measurements gate, so when the gate constant is at
least 1 each such accumulator has class-0 count above 1; the additional
unconditional invocation that report makes on the selected accumulator is
not guarded, and in reachable states it can receive an accumulator with a
class count of 1 or less. -/
theorem max_test_calls_gate_guarded (enough : ℕ) (ctxs : List ttest_ctx)
    (hE : 1 ≤ enough) :
    ∀ c ∈ max_test_calls enough ctxs, 1 < c.n.1 := by
  intro c hc
  unfold max_test_calls at hc
  rw [List.mem_filterMap] at hc
  obtain ⟨i, -, hi⟩ := hc
  by_cases h : enough < (ctxs.getD i t_init).n.1
  · rw [if_pos h] at hi
    injection hi with hi
    subst hi
    omega
  · rw [if_neg h] at hi
    exact absurd hi (by simp)

/-- Witness for max_test_calls_gate_guarded at a concrete state: the one
accumulator with class-0 count 3 passes the gate with threshold 1, so the
theorem yields 1 < 3 for it. -/
theorem max_test_calls_gate_guarded_witness :
    1 < (({ mean := (0, 0), m2 := (0, 0), n := (3, 0) } : ttest_ctx)).n.1 :=
  max_test_calls_gate_guarded 1
    [{ mean := (0, 0), m2 := (0, 0), n := (3, 0) }] (by decide)
    { mean := (0, 0), m2 := (0, 0), n := (3, 0) }
    (by
      rw [show max_test_calls 1
          [({ mean := (0, 0), m2 := (0, 0), n := (3, 0) } : ttest_ctx)]
          = [{ mean := (0, 0), m2 := (0, 0), n := (3, 0) }] from rfl]
      exact List.mem_singleton.mpr rfl)

lemma sorted_replicate (m : ℕ) (c : ℤ) :
    List.Sorted (· ≤ ·) (List.replicate m c) := by
  induction m with
  | zero => simp
  | succ k ih =>
    rw [List.replicate_succ, List.sorted_cons]
    exact ⟨fun b hb => le_of_eq (List.eq_of_mem_replicate hb).symm, ih⟩

lemma sortInt_replicate (m : ℕ) (c : ℤ) :
    sortInt (List.replicate m c) = List.replicate m c :=
  List.eq_of_perm_of_sorted (List.perm_insertionSort _ _)
    (List.sorted_insertionSort _ _) (sorted_replicate m c)

lemma sortInt_replicate_append_zero (m : ℕ) (c : ℤ) (hc : 0 ≤ c) :
    sortInt (List.replicate m c ++ [0]) = 0 :: List.replicate m c := by
  refine List.eq_of_perm_of_sorted
    ((List.perm_insertionSort _ _).trans (List.perm_append_singleton 0 _))
    (List.sorted_insertionSort _ _) ?_
  rw [List.sorted_cons]
  exact ⟨fun b hb => le_trans hc (le_of_eq (List.eq_of_mem_replicate hb).symm),
    sorted_replicate m c⟩

lemma getD_zero_cons_replicate (m p : ℕ) (c : ℤ) (h1 : 1 ≤ p) (h2 : p ≤ m) :
    ((0 : ℤ) :: List.replicate m c).getD p 0 = c := by
  cases p with
  | zero => omega
  | succ q =>
    rw [List.getD_cons_succ,
      List.getD_eq_getElem _ 0 (by simpa using (by omega : q < m))]
    simp

lemma percentile_which_one_zero : percentile_which 1 0 = 1 - 1 / 1024 := by
  unfold percentile_which
  have he : (10 * (((0 : ℕ) : ℝ) + 1) / ((1 : ℕ) : ℝ)) = ((10 : ℕ) : ℝ) := by
    norm_num
  rw [he, Real.rpow_natCast]
  norm_num

lemma prepare_percentiles_sevens (N : ℕ) (hN : 2 ≤ N) :
    prepare_percentiles (List.replicate (N - 1) (7 : ℤ) ++ [0]) N 1 = [7] := by
  unfold prepare_percentiles
  rw [show List.range 1 = [0] from rfl, List.map_cons, List.map_nil]
  congr 1
  unfold percentile
  rw [percentile_which_one_zero,
    sortInt_replicate_append_zero (N - 1) 7 (by norm_num)]
  apply getD_zero_cons_replicate
  · unfold array_position
    apply Nat.le_floor
    have h2 : (2 : ℝ) ≤ (N : ℝ) := by exact_mod_cast hN
    nlinarith
  · have h := array_position_lt N (by omega) (1 - 1 / 1024)
      (by norm_num) (by norm_num)
    omega

lemma prepare_percentiles_zeros (n N P : ℕ) :
    prepare_percentiles (List.replicate n (0 : ℤ)) N P
      = List.replicate P 0 := by
  unfold prepare_percentiles
  refine List.eq_replicate_iff.mpr ⟨by simp, fun b hb => ?_⟩
  rw [List.mem_map] at hb
  obtain ⟨i, -, rfl⟩ := hb
  unfold percentile
  rw [sortInt_replicate]
  exact getD_replicate n _ 0

lemma dudect_init_first_time (N P : ℕ) :
    (dudect_init N P).percentiles.getD (P - 1) 0 = 0 := by
  simp only [dudect_init]
  exact getD_replicate P (P - 1) 0

lemma dudect_init_exec_getD (N P i : ℕ) :
    (dudect_init N P).exec_times.getD i 0 = 0 := by
  simp only [dudect_init]
  exact getD_replicate N i 0

lemma calib_sevens_percentiles (N enough : ℕ) (hN : 2 ≤ N)
    (classes : List ℕ) :
    (dudect_main N 1 enough (dudect_init N 1) (List.replicate (N - 1) 7)
        classes).1.percentiles = [7] := by
  rw [dudect_main_calib N 1 enough _ _ classes (dudect_init_first_time N 1)]
  dsimp only
  rw [dudect_init_exec_getD N 1 (N - 1)]
  exact prepare_percentiles_sevens N hN

lemma calib_sevens_ttest (N enough : ℕ) (classes : List ℕ) :
    (dudect_main N 1 enough (dudect_init N 1) (List.replicate (N - 1) 7)
        classes).1.ttest_ctxs = List.replicate 3 t_init := by
  rw [dudect_main_calib N 1 enough _ _ classes (dudect_init_first_time N 1)]
  rfl

lemma calib_sevens_exec (N enough : ℕ) (classes : List ℕ) :
    (dudect_main N 1 enough (dudect_init N 1) (List.replicate (N - 1) 7)
        classes).1.exec_times = 0 :: List.replicate (N - 1) 7 := by
  rw [dudect_main_calib N 1 enough _ _ classes (dudect_init_first_time N 1)]
  dsimp only
  rw [dudect_init_exec_getD N 1 (N - 1)]
  exact sortInt_replicate_append_zero (N - 1) 7 (by norm_num)

lemma t_compute_m2_zero (c : ttest_ctx) (h1 : c.m2.1 = 0)
    (h2 : c.m2.2 = 0) : t_compute c = 0 := by
  simp [t_compute, h1, h2]

lemma t_push_fresh0 (x : ℚ) (mp m2p : ℚ) (b : ℕ) :
    t_push { mean := (0, mp), m2 := (0, m2p), n := (0, b) } x 0
      = { mean := (x, mp), m2 := (0, m2p), n := (1, b) } := by
  simp [t_push, sel2, upd2]

lemma t_push_stable0 (x : ℚ) (mp m2p : ℚ) (a b : ℕ) :
    t_push { mean := (x, mp), m2 := (0, m2p), n := (a, b) } x 0
      = { mean := (x, mp), m2 := (0, m2p), n := (a + 1, b) } := by
  simp [t_push, sel2, upd2]

lemma t_push_fresh1 (x : ℚ) (mp m2p : ℚ) (a : ℕ) :
    t_push { mean := (mp, 0), m2 := (m2p, 0), n := (a, 0) } x 1
      = { mean := (mp, x), m2 := (m2p, 0), n := (a, 1) } := by
  simp [t_push, sel2, upd2]

lemma t_push_stable1 (x : ℚ) (mp m2p : ℚ) (a b : ℕ) :
    t_push { mean := (mp, x), m2 := (m2p, 0), n := (a, b) } x 1
      = { mean := (mp, x), m2 := (m2p, 0), n := (a, b + 1) } := by
  simp [t_push, sel2, upd2]

lemma report_eval_no_leak (enough : ℕ) (ctxs : List ttest_ctx)
    (hm1 : (ctxs.getD (max_test enough ctxs) t_init).m2.1 = 0)
    (hm2 : (ctxs.getD (max_test enough ctxs) t_init).m2.2 = 0)
    (htot : enough ≤ (ctxs.getD (max_test enough ctxs) t_init).n.1
      + (ctxs.getD (max_test enough ctxs) t_init).n.2) :
    report enough ctxs = dudect_state_t.DUDECT_NO_LEAKAGE_EVIDENCE_YET := by
  have ht : t_compute (ctxs.getD (max_test enough ctxs) t_init) = 0 :=
    t_compute_m2_zero _ hm1 hm2
  have h1 : ¬ (((ctxs.getD (max_test enough ctxs) t_init).n.1 : ℝ)
      + ((ctxs.getD (max_test enough ctxs) t_init).n.2 : ℝ) < (enough : ℝ)) :=
    not_lt.mpr (by exact_mod_cast htot)
  have h2 : ¬ ((t_threshold_bananas : ℝ)
      < |t_compute (ctxs.getD (max_test enough ctxs) t_init)|) := by
    rw [ht, abs_zero]
    norm_num [t_threshold_bananas]
  have h3 : ¬ ((t_threshold_moderate : ℝ)
      < |t_compute (ctxs.getD (max_test enough ctxs) t_init)|) := by
    rw [ht, abs_zero]
    norm_num [t_threshold_moderate]
  simp only [report]
  rw [if_neg h1, if_neg h2, if_neg h3]

lemma c1_witness_state_percentiles : c1_witness_state.percentiles = [7] := by
  unfold c1_witness_state
  exact calib_sevens_percentiles 12 0 (by norm_num) (List.replicate 12 0)

lemma c1_witness_state_ttest :
    c1_witness_state.ttest_ctxs = List.replicate 3 t_init := by
  unfold c1_witness_state
  exact calib_sevens_ttest 12 0 (List.replicate 12 0)

lemma c1_witness_state_exec :
    c1_witness_state.exec_times = 0 :: List.replicate 11 7 := by
  unfold c1_witness_state
  exact calib_sevens_exec 12 0 (List.replicate 12 0)

/-- Witness for step_with_gate_classifies: after a calibration step and one
accumulating step with a single retained class-0 delta, the raw accumulator
meets a gate constant of 0 and the theorem applies. -/
theorem step_with_gate_classifies_witness :
    (0 < ((dudect_main 12 1 0 c1_witness_state (List.replicate 11 9)
        (List.replicate 12 0)).1.ttest_ctxs.getD
        (max_test 0 (dudect_main 12 1 0 c1_witness_state
          (List.replicate 11 9) (List.replicate 12 0)).1.ttest_ctxs)
        t_init).n.1)
    ∧ (∀ i < (dudect_main 12 1 0 c1_witness_state (List.replicate 11 9)
          (List.replicate 12 0)).1.ttest_ctxs.length,
        0 < ((dudect_main 12 1 0 c1_witness_state (List.replicate 11 9)
            (List.replicate 12 0)).1.ttest_ctxs.getD i t_init).n.1 →
        |t_compute ((dudect_main 12 1 0 c1_witness_state
            (List.replicate 11 9)
            (List.replicate 12 0)).1.ttest_ctxs.getD i t_init)|
          ≤ |t_compute ((dudect_main 12 1 0 c1_witness_state
              (List.replicate 11 9)
              (List.replicate 12 0)).1.ttest_ctxs.getD
              (max_test 0 (dudect_main 12 1 0 c1_witness_state
                (List.replicate 11 9)
                (List.replicate 12 0)).1.ttest_ctxs) t_init)|)
    ∧ (dudect_main 12 1 0 c1_witness_state (List.replicate 11 9)
        (List.replicate 12 0)).2
        = (if (t_threshold_bananas : ℝ) < |t_compute ((dudect_main 12 1 0
              c1_witness_state (List.replicate 11 9)
              (List.replicate 12 0)).1.ttest_ctxs.getD
              (max_test 0 (dudect_main 12 1 0 c1_witness_state
                (List.replicate 11 9)
                (List.replicate 12 0)).1.ttest_ctxs) t_init)| then
            dudect_state_t.DUDECT_LEAKAGE_FOUND
          else if (t_threshold_moderate : ℝ) < |t_compute ((dudect_main 12 1 0
              c1_witness_state (List.replicate 11 9)
              (List.replicate 12 0)).1.ttest_ctxs.getD
              (max_test 0 (dudect_main 12 1 0 c1_witness_state
                (List.replicate 11 9)
                (List.replicate 12 0)).1.ttest_ctxs) t_init)| then
            dudect_state_t.DUDECT_LEAKAGE_FOUND
          else dudect_state_t.DUDECT_NO_LEAKAGE_EVIDENCE_YET) := by
  have hacc : c1_witness_state.percentiles.getD (1 - 1) 0 ≠ 0 := by
    rw [c1_witness_state_percentiles]
    decide
  have hr : Reachable 12 1 0 c1_witness_state := by
    unfold c1_witness_state
    exact Reachable.step _ _ _ Reachable.init (by simp) (by simp)
      (fun k hk => by rw [List.eq_of_mem_replicate hk]; omega)
  have hctxs : (dudect_main 12 1 0 c1_witness_state (List.replicate 11 9)
      (List.replicate 12 0)).1.ttest_ctxs
      = update_statistics 1 [7] (List.replicate 3 t_init)
          (List.replicate 11 9 ++ [7]) (List.replicate 12 0) 12 := by
    rw [dudect_main_accum 12 1 0 c1_witness_state _ _ hacc]
    dsimp only
    rw [c1_witness_state_percentiles, c1_witness_state_ttest,
      c1_witness_state_exec,
      show ((0 : ℤ) :: List.replicate 11 7).getD (12 - 1) 0 = 7 from by decide]
  have hraw : (update_statistics 1 [7] (List.replicate 3 t_init)
      (List.replicate 11 9 ++ [7]) (List.replicate 12 0) 12).getD 0 t_init
      = { mean := ((9 : ℚ), 0), m2 := (0, 0), n := (1, 0) } := by
    rw [update_statistics_eq_pairs 1 [7] _ _ _ 12 (by simp) (by simp),
      pairs_fold_raw 1 [7] _ (List.replicate 3 t_init) (by simp)]
    have hfil : List.filter (fun p => decide (0 ≤ p.1))
        (List.take (12 - 1 - 10) (List.drop 10
          ((List.replicate 11 (9 : ℤ) ++ [7]).zip
            (List.replicate 12 (0 : ℕ)))))
        = [((9 : ℤ), (0 : ℕ))] := by decide
    rw [hfil, show (List.replicate 3 t_init).getD 0 t_init = t_init from rfl]
    simp only [List.foldl_cons, List.foldl_nil]
    rw [show t_init
        = ({ mean := (0, 0), m2 := (0, 0), n := (0, 0) } : ttest_ctx)
        from rfl, t_push_fresh0]
    norm_num
  have hex : ∃ i,
      i < (dudect_main 12 1 0 c1_witness_state (List.replicate 11 9)
        (List.replicate 12 0)).1.ttest_ctxs.length
      ∧ 0 < ((dudect_main 12 1 0 c1_witness_state (List.replicate 11 9)
          (List.replicate 12 0)).1.ttest_ctxs.getD i t_init).n.1 := by
    refine ⟨0, ?_, ?_⟩
    · rw [hctxs, update_statistics_length]
      simp
    · rw [hctxs, hraw]
      decide
  exact step_with_gate_classifies 12 1 0 c1_witness_state
    (List.replicate 11 9) (List.replicate 12 0) hr (by simp) (by simp)
    hacc hex

lemma cex_state16_percentiles : cex_state16.percentiles = [7] := by
  unfold cex_state16
  exact calib_sevens_percentiles 16 4 (by norm_num) (List.replicate 16 0)

lemma cex_state16_ttest :
    cex_state16.ttest_ctxs = List.replicate 3 t_init := by
  unfold cex_state16
  exact calib_sevens_ttest 16 4 (List.replicate 16 0)

lemma cex_state16_exec :
    cex_state16.exec_times = 0 :: List.replicate 15 7 := by
  unfold cex_state16
  exact calib_sevens_exec 16 4 (List.replicate 16 0)

lemma cex_state16_acc : cex_state16.percentiles.getD (1 - 1) 0 ≠ 0 := by
  rw [cex_state16_percentiles]
  decide

lemma cex16_step_ttest (cls : List ℕ) :
    (dudect_main 16 1 4 cex_state16 (List.replicate 15 5) cls).1.ttest_ctxs
      = update_statistics 1 [7] (List.replicate 3 t_init)
          (List.replicate 15 5 ++ [7]) cls 16 := by
  rw [dudect_main_accum 16 1 4 cex_state16 _ _ cex_state16_acc]
  dsimp only
  rw [cex_state16_percentiles, cex_state16_ttest, cex_state16_exec,
    show ((0 : ℤ) :: List.replicate 15 7).getD (16 - 1) 0 = 7 from by decide]

lemma cex16_step_verdict (cls : List ℕ) :
    (dudect_main 16 1 4 cex_state16 (List.replicate 15 5) cls).2
      = report 4 (update_statistics 1 [7] (List.replicate 3 t_init)
          (List.replicate 15 5 ++ [7]) cls 16) := by
  rw [dudect_main_accum 16 1 4 cex_state16 _ _ cex_state16_acc]
  dsimp only
  rw [cex_state16_percentiles, cex_state16_ttest, cex_state16_exec,
    show ((0 : ℤ) :: List.replicate 15 7).getD (16 - 1) 0 = 7 from by decide]

lemma scenario16_eval (cls : List ℕ) (retained : List (ℤ × ℕ))
    (A : ttest_ctx)
    (hcls : cls.length = 16)
    (hfil_raw : List.filter (fun p => decide (0 ≤ p.1))
      (List.take (16 - 1 - 10) (List.drop 10
        ((List.replicate 15 (5 : ℤ) ++ [7]).zip cls))) = retained)
    (hfil_crop : List.filter
      (fun p => decide (0 ≤ p.1 ∧ p.1 < List.getD [7] 0 0))
      (List.take (16 - 1 - 10) (List.drop 10
        ((List.replicate 15 (5 : ℤ) ++ [7]).zip cls))) = retained)
    (hfold : retained.foldl (fun c p => t_push c (p.1 : ℚ) p.2) t_init = A)
    (hA : A.n.1 ≤ 10000) :
    (update_statistics 1 [7] (List.replicate 3 t_init)
        (List.replicate 15 5 ++ [7]) cls 16).getD 0 t_init = A
    ∧ (update_statistics 1 [7] (List.replicate 3 t_init)
        (List.replicate 15 5 ++ [7]) cls 16).getD 1 t_init = A
    ∧ (update_statistics 1 [7] (List.replicate 3 t_init)
        (List.replicate 15 5 ++ [7]) cls 16).getD 2 t_init = t_init := by
  have hexec : (16 : ℕ) - 1 ≤ (List.replicate 15 (5 : ℤ) ++ [7]).length := by
    simp
  have hcls2 : (16 : ℕ) - 1 ≤ cls.length := by omega
  have hV0 : ((List.take (16 - 1 - 10) (List.drop 10
      ((List.replicate 15 (5 : ℤ) ++ [7]).zip cls))).foldl
      (fun cs p => update_one 1 [7] cs p.1 p.2)
      (List.replicate 3 t_init)).getD 0 t_init = A := by
    rw [pairs_fold_raw 1 [7] _ (List.replicate 3 t_init) (by simp), hfil_raw,
      show (List.replicate 3 t_init).getD 0 t_init = t_init from rfl, hfold]
  refine ⟨?_, ?_, ?_⟩
  · rw [update_statistics_eq_pairs 1 [7] _ _ _ 16 hexec hcls2]
    exact hV0
  · rw [update_statistics_eq_pairs 1 [7] _ _ _ 16 hexec hcls2]
    have h := pairs_fold_crop 1 [7]
      (List.take (16 - 1 - 10) (List.drop 10
        ((List.replicate 15 (5 : ℤ) ++ [7]).zip cls))) 0 (by omega)
      (List.replicate 3 t_init) (by simp)
    rw [hfil_crop,
      show (List.replicate 3 t_init).getD (0 + 1) t_init = t_init from rfl,
      hfold] at h
    exact h
  · rw [update_statistics_eq_pairs 1 [7] _ _ _ 16 hexec hcls2]
    have h := pairs_fold_so_unchanged 1 [7]
      (List.take (16 - 1 - 10) (List.drop 10
        ((List.replicate 15 (5 : ℤ) ++ [7]).zip cls)))
      (List.replicate 3 t_init) (by simp) (by rw [hV0]; exact hA)
    rw [show (List.replicate 3 t_init).getD (1 + 1) t_init = t_init from rfl]
      at h
    exact h

lemma c2_fold : (([((5 : ℤ), (0 : ℕ)), (5, 0), (5, 1), (5, 1),
      (5, 1)]).foldl (fun c p => t_push c (p.1 : ℚ) p.2) t_init)
    = { mean := ((5 : ℚ), 5), m2 := (0, 0), n := (2, 3) } := by
  simp only [List.foldl_cons, List.foldl_nil]
  rw [show t_init
      = ({ mean := (0, 0), m2 := (0, 0), n := (0, 0) } : ttest_ctx) from rfl,
    t_push_fresh0, t_push_stable0, t_push_fresh1, t_push_stable1,
    t_push_stable1]
  norm_num

lemma c2_U :
    (update_statistics 1 [7] (List.replicate 3 t_init)
        (List.replicate 15 5 ++ [7]) c2_classes 16).getD 0 t_init
      = { mean := ((5 : ℚ), 5), m2 := (0, 0), n := (2, 3) }
    ∧ (update_statistics 1 [7] (List.replicate 3 t_init)
        (List.replicate 15 5 ++ [7]) c2_classes 16).getD 1 t_init
      = { mean := ((5 : ℚ), 5), m2 := (0, 0), n := (2, 3) }
    ∧ (update_statistics 1 [7] (List.replicate 3 t_init)
        (List.replicate 15 5 ++ [7]) c2_classes 16).getD 2 t_init
      = t_init :=
  scenario16_eval c2_classes _ _ (by decide) (by decide) (by decide)
    c2_fold (by decide)

/-- Counterexample to C2 as stated: a reachable accumulating step in which
no accumulator meets the class-0 gate of 4, yet the verdict is the real
verdict no-leakage-evidence-yet rather than not-enough-measurements,
because the check in report is on the total count n0 + n1 = 5 of the raw
accumulator. -/
theorem no_gate_real_verdict_cex :
    (∀ i < (dudect_main 16 1 4 cex_state16 (List.replicate 15 5)
        c2_classes).1.ttest_ctxs.length,
      ((dudect_main 16 1 4 cex_state16 (List.replicate 15 5)
        c2_classes).1.ttest_ctxs.getD i t_init).n.1 ≤ 4)
    ∧ (dudect_main 16 1 4 cex_state16 (List.replicate 15 5) c2_classes).2
        = dudect_state_t.DUDECT_NO_LEAKAGE_EVIDENCE_YET := by
  obtain ⟨hU0, hU1, hU2⟩ := c2_U
  have hnogate : ∀ i < (update_statistics 1 [7] (List.replicate 3 t_init)
      (List.replicate 15 5 ++ [7]) c2_classes 16).length,
      ((update_statistics 1 [7] (List.replicate 3 t_init)
        (List.replicate 15 5 ++ [7]) c2_classes 16).getD i t_init).n.1
        ≤ 4 := by
    intro i hi
    rw [update_statistics_length] at hi
    simp only [List.length_replicate] at hi
    interval_cases i
    · rw [hU0]
      decide
    · rw [hU1]
      decide
    · rw [hU2]
      decide
  constructor
  · rw [cex16_step_ttest c2_classes]
    exact hnogate
  · rw [cex16_step_verdict c2_classes]
    have hsel := max_test_no_gate 4 _ hnogate
    apply report_eval_no_leak
    · rw [hsel, hU0]
    · rw [hsel, hU0]
    · rw [hsel, hU0]
      decide

lemma c3_fold : (([((5 : ℤ), (0 : ℕ)), (5, 0), (5, 0), (5, 1),
      (5, 1)]).foldl (fun c p => t_push c (p.1 : ℚ) p.2) t_init)
    = { mean := ((5 : ℚ), 5), m2 := (0, 0), n := (3, 2) } := by
  simp only [List.foldl_cons, List.foldl_nil]
  rw [show t_init
      = ({ mean := (0, 0), m2 := (0, 0), n := (0, 0) } : ttest_ctx) from rfl,
    t_push_fresh0, t_push_stable0, t_push_stable0, t_push_fresh1,
    t_push_stable1]
  norm_num

lemma c3_U :
    (update_statistics 1 [7] (List.replicate 3 t_init)
        (List.replicate 15 5 ++ [7]) c3_classes 16).getD 0 t_init
      = { mean := ((5 : ℚ), 5), m2 := (0, 0), n := (3, 2) }
    ∧ (update_statistics 1 [7] (List.replicate 3 t_init)
        (List.replicate 15 5 ++ [7]) c3_classes 16).getD 1 t_init
      = { mean := ((5 : ℚ), 5), m2 := (0, 0), n := (3, 2) }
    ∧ (update_statistics 1 [7] (List.replicate 3 t_init)
        (List.replicate 15 5 ++ [7]) c3_classes 16).getD 2 t_init
      = t_init :=
  scenario16_eval c3_classes _ _ (by decide) (by decide) (by decide)
    c3_fold (by decide)

/-- Counterexample to C3 as stated: a reachable accumulating step in which
the selected raw accumulator has class-0 count exactly 3, which is the gate
threshold 4 minus 1, yet the step returns the real verdict
no-leakage-evidence-yet instead of not-enough-measurements, because the
boundary tested by report is on the total count n0 + n1 = 5. -/
theorem class0_boundary_cex :
    ((dudect_main 16 1 4 cex_state16 (List.replicate 15 5)
        c3_classes).1.ttest_ctxs.getD 0 t_init).n.1 = 4 - 1
    ∧ max_test 4 (dudect_main 16 1 4 cex_state16 (List.replicate 15 5)
        c3_classes).1.ttest_ctxs = 0
    ∧ (dudect_main 16 1 4 cex_state16 (List.replicate 15 5) c3_classes).2
        = dudect_state_t.DUDECT_NO_LEAKAGE_EVIDENCE_YET := by
  obtain ⟨hU0, hU1, hU2⟩ := c3_U
  have hnogate : ∀ i < (update_statistics 1 [7] (List.replicate 3 t_init)
      (List.replicate 15 5 ++ [7]) c3_classes 16).length,
      ((update_statistics 1 [7] (List.replicate 3 t_init)
        (List.replicate 15 5 ++ [7]) c3_classes 16).getD i t_init).n.1
        ≤ 4 := by
    intro i hi
    rw [update_statistics_length] at hi
    simp only [List.length_replicate] at hi
    interval_cases i
    · rw [hU0]
      decide
    · rw [hU1]
      decide
    · rw [hU2]
      decide
  have hsel := max_test_no_gate 4 _ hnogate
  refine ⟨?_, ?_, ?_⟩
  · rw [cex16_step_ttest c3_classes, hU0]
  · rw [cex16_step_ttest c3_classes]
    exact hsel
  · rw [cex16_step_verdict c3_classes]
    apply report_eval_no_leak
    · rw [hsel, hU0]
    · rw [hsel, hU0]
    · rw [hsel, hU0]
      decide

lemma cex_state12_percentiles : cex_state12.percentiles = [7] := by
  unfold cex_state12
  exact calib_sevens_percentiles 12 10000 (by norm_num) (List.replicate 12 0)

lemma cex_state12_ttest :
    cex_state12.ttest_ctxs = List.replicate 3 t_init := by
  unfold cex_state12
  exact calib_sevens_ttest 12 10000 (List.replicate 12 0)

lemma cex_state12_exec :
    cex_state12.exec_times = 0 :: List.replicate 11 7 := by
  unfold cex_state12
  exact calib_sevens_exec 12 10000 (List.replicate 12 0)

lemma cex_state12_step_ttest :
    (dudect_main 12 1 10000 cex_state12 (List.replicate 11 (-3))
        (List.replicate 12 0)).1.ttest_ctxs = List.replicate 3 t_init := by
  rw [dudect_main_accum 12 1 10000 cex_state12 _ _
    (by rw [cex_state12_percentiles]; decide)]
  dsimp only
  rw [cex_state12_percentiles, cex_state12_ttest, cex_state12_exec,
    show ((0 : ℤ) :: List.replicate 11 7).getD (12 - 1) 0 = 7 from by decide,
    update_statistics_eq_pairs 1 [7] _ _ _ 12 (by simp) (by simp)]
  have hp : List.take (12 - 1 - 10) (List.drop 10
      ((List.replicate 11 (-3 : ℤ) ++ [7]).zip (List.replicate 12 (0 : ℕ))))
      = [((-3 : ℤ), (0 : ℕ))] := by decide
  rw [hp]
  simp only [List.foldl_cons, List.foldl_nil]
  unfold update_one
  rw [if_pos (by decide)]

/-- Counterexample to C8 as stated: in a reachable accumulating step in
which the batch contributes no retained measurement, the call list of the
report invocation of t_compute contains the selected raw accumulator, whose
class counts are both 0, far below the precondition that both counts exceed
1: the unconditional call site in report is not protected by the gate. -/
theorem t_compute_low_count_cex :
    ((dudect_main 12 1 10000 cex_state12 (List.replicate 11 (-3))
        (List.replicate 12 0)).1.ttest_ctxs.getD
        (max_test 10000 (dudect_main 12 1 10000 cex_state12
          (List.replicate 11 (-3)) (List.replicate 12 0)).1.ttest_ctxs)
        t_init)
      ∈ report_calls 10000 (dudect_main 12 1 10000 cex_state12
          (List.replicate 11 (-3)) (List.replicate 12 0)).1.ttest_ctxs
    ∧ ((dudect_main 12 1 10000 cex_state12 (List.replicate 11 (-3))
        (List.replicate 12 0)).1.ttest_ctxs.getD
        (max_test 10000 (dudect_main 12 1 10000 cex_state12
          (List.replicate 11 (-3)) (List.replicate 12 0)).1.ttest_ctxs)
        t_init).n.1 = 0
    ∧ ((dudect_main 12 1 10000 cex_state12 (List.replicate 11 (-3))
        (List.replicate 12 0)).1.ttest_ctxs.getD
        (max_test 10000 (dudect_main 12 1 10000 cex_state12
          (List.replicate 11 (-3)) (List.replicate 12 0)).1.ttest_ctxs)
        t_init).n.2 = 0 := by
  have hsel : max_test 10000 (List.replicate 3 t_init) = 0 :=
    max_test_no_gate 10000 _ (by
      intro i hi
      simp only [List.length_replicate] at hi
      interval_cases i <;> decide)
  refine ⟨?_, ?_, ?_⟩
  · rw [cex_state12_step_ttest]
    unfold report_calls
    exact List.mem_append_right _ (List.mem_singleton.mpr rfl)
  · rw [cex_state12_step_ttest, hsel]
    decide
  · rw [cex_state12_step_ttest, hsel]
    decide

/-- Counterexample to C4 as stated: a first batch whose deltas are all 0
computes the all-zero threshold set, so the recalibration trigger (last
threshold equal to 0) still fires on the second call, which recomputes the
thresholds from the second batch: the thresholds computed by the first call
are not frozen. -/
theorem recalibration_cex :
    (dudect_main 12 1 4 (dudect_init 12 1) (List.replicate 11 0)
        (List.replicate 12 0)).1.percentiles = [0]
    ∧ (dudect_main 12 1 4 (dudect_main 12 1 4 (dudect_init 12 1)
        (List.replicate 11 0) (List.replicate 12 0)).1
        (List.replicate 11 7) (List.replicate 12 0)).1.percentiles = [7]
    ∧ (dudect_main 12 1 4 (dudect_main 12 1 4 (dudect_init 12 1)
        (List.replicate 11 0) (List.replicate 12 0)).1
        (List.replicate 11 7) (List.replicate 12 0)).1.percentiles
      ≠ (dudect_main 12 1 4 (dudect_init 12 1) (List.replicate 11 0)
        (List.replicate 12 0)).1.percentiles := by
  have h1 : (dudect_main 12 1 4 (dudect_init 12 1) (List.replicate 11 0)
      (List.replicate 12 0)).1.percentiles = [0] := by
    rw [dudect_main_calib 12 1 4 _ _ _ (dudect_init_first_time 12 1)]
    dsimp only
    rw [dudect_init_exec_getD 12 1 (12 - 1),
      show List.replicate 11 (0 : ℤ) ++ [0] = List.replicate 12 0 from
        by decide,
      prepare_percentiles_zeros 12 12 1]
    decide
  have h1e : (dudect_main 12 1 4 (dudect_init 12 1) (List.replicate 11 0)
      (List.replicate 12 0)).1.exec_times = List.replicate 12 0 := by
    rw [dudect_main_calib 12 1 4 _ _ _ (dudect_init_first_time 12 1)]
    dsimp only
    rw [dudect_init_exec_getD 12 1 (12 - 1),
      show List.replicate 11 (0 : ℤ) ++ [0] = List.replicate 12 0 from
        by decide,
      sortInt_replicate]
  have h2 : (dudect_main 12 1 4 (dudect_main 12 1 4 (dudect_init 12 1)
      (List.replicate 11 0) (List.replicate 12 0)).1
      (List.replicate 11 7) (List.replicate 12 0)).1.percentiles = [7] := by
    rw [dudect_main_calib 12 1 4 _ _ _ (by rw [h1]; decide)]
    dsimp only
    rw [show (dudect_main 12 1 4 (dudect_init 12 1) (List.replicate 11 0)
        (List.replicate 12 0)).1.exec_times.getD (12 - 1) 0 = 0 from
      by rw [h1e]; exact getD_replicate 12 (12 - 1) 0]
    exact prepare_percentiles_sevens 12 (by norm_num)
  refine ⟨h1, h2, ?_⟩
  rw [h1, h2]
  decide

lemma c5_state_percentiles : c5_state.percentiles = [7] := by
  unfold c5_state
  exact calib_sevens_percentiles 10012 10000 (by norm_num)
    (List.replicate 10012 1)

lemma c5_state_ttest : c5_state.ttest_ctxs = List.replicate 3 t_init := by
  unfold c5_state
  exact calib_sevens_ttest 10012 10000 (List.replicate 10012 1)

lemma c5_state_exec :
    c5_state.exec_times = 0 :: List.replicate 10011 7 := by
  unfold c5_state
  exact calib_sevens_exec 10012 10000 (List.replicate 10012 1)

lemma c5_pairs : List.take (10012 - 1 - 10) (List.drop 10
    ((List.replicate 10011 (5 : ℤ) ++ [7]).zip
      (List.replicate 10012 (1 : ℕ))))
    = List.replicate 10001 ((5 : ℤ), (1 : ℕ)) := by
  rw [show (10012 : ℕ) - 1 - 10 = 10001 from by norm_num,
    show List.replicate 10012 (1 : ℕ) = List.replicate 10011 1 ++ [1] from
      List.replicate_succ' 10011 1,
    List.zip_append (by simp only [List.length_replicate]),
    List.zip_replicate, min_self,
    show (([(7 : ℤ)]).zip ([(1 : ℕ)])) = [((7 : ℤ), (1 : ℕ))] from rfl,
    List.drop_append_of_le_length
      (by simp only [List.length_replicate]; omega),
    List.drop_replicate,
    show (10011 : ℕ) - 10 = 10001 from by norm_num,
    List.take_append_of_le_length
      (by simp only [List.length_replicate]; omega),
    List.take_replicate, min_self]

lemma foldl_push_replicate_five_one (m : ℕ) :
    ∀ (b : ℕ) (mp m2p : ℚ) (a : ℕ),
      (List.replicate m ((5 : ℤ), (1 : ℕ))).foldl
        (fun c p => t_push c (p.1 : ℚ) p.2)
        { mean := (mp, (((5 : ℤ) : ℚ))), m2 := (m2p, 0), n := (a, b) }
      = { mean := (mp, (((5 : ℤ) : ℚ))), m2 := (m2p, 0),
          n := (a, b + m) } := by
  induction m with
  | zero =>
    intro b mp m2p a
    simp
  | succ k ih =>
    intro b mp m2p a
    rw [List.replicate_succ]
    simp only [List.foldl_cons]
    rw [t_push_stable1, ih (b + 1) mp m2p a,
      show b + 1 + k = b + (k + 1) from by omega]

lemma c5_fold : (List.replicate 10001 ((5 : ℤ), (1 : ℕ))).foldl
    (fun c p => t_push c (p.1 : ℚ) p.2) t_init
    = { mean := ((0 : ℚ), ((5 : ℤ) : ℚ)), m2 := (0, 0), n := (0, 10001) } := by
  have h2 : t_push t_init ((5 : ℤ) : ℚ) 1
      = { mean := (0, (((5 : ℤ) : ℚ))), m2 := (0, 0), n := (0, 1) } := by
    rw [show t_init
      = ({ mean := (0, 0), m2 := (0, 0), n := (0, 0) } : ttest_ctx) from rfl,
      t_push_fresh1]
  calc (List.replicate 10001 ((5 : ℤ), (1 : ℕ))).foldl
        (fun c p => t_push c (p.1 : ℚ) p.2) t_init
      = (((5 : ℤ), (1 : ℕ)) :: List.replicate 10000 ((5 : ℤ), (1 : ℕ))).foldl
          (fun c p => t_push c (p.1 : ℚ) p.2) t_init := by
        rw [show List.replicate 10001 ((5 : ℤ), (1 : ℕ))
          = ((5 : ℤ), (1 : ℕ)) :: List.replicate 10000 ((5 : ℤ), (1 : ℕ)) from
          List.replicate_succ ..]
    _ = (List.replicate 10000 ((5 : ℤ), (1 : ℕ))).foldl
          (fun c p => t_push c (p.1 : ℚ) p.2)
          { mean := ((0 : ℚ), (((5 : ℤ) : ℚ))), m2 := (0, 0),
            n := (0, 1) } := by
        rw [List.foldl_cons]
        show (List.replicate 10000 ((5 : ℤ), (1 : ℕ))).foldl
            (fun c p => t_push c (p.1 : ℚ) p.2)
            (t_push t_init (((5 : ℤ) : ℚ)) 1) = _
        rw [h2]
    _ = { mean := ((0 : ℚ), ((5 : ℤ) : ℚ)), m2 := (0, 0),
          n := (0, 10001) } := by
        rw [foldl_push_replicate_five_one 10000 1 0 0 0]

lemma c5_U :
    (update_statistics 1 [7] (List.replicate 3 t_init)
        (List.replicate 10011 5 ++ [7]) (List.replicate 10012 1)
        10012).getD 0 t_init
      = { mean := ((0 : ℚ), ((5 : ℤ) : ℚ)), m2 := (0, 0), n := (0, 10001) }
    ∧ (update_statistics 1 [7] (List.replicate 3 t_init)
        (List.replicate 10011 5 ++ [7]) (List.replicate 10012 1)
        10012).getD 2 t_init = t_init := by
  have hexec : (10012 : ℕ) - 1
      ≤ (List.replicate 10011 (5 : ℤ) ++ [7]).length := by
    simp only [List.length_append, List.length_replicate, List.length_cons,
      List.length_nil]
    omega
  have hcls : (10012 : ℕ) - 1 ≤ (List.replicate 10012 (1 : ℕ)).length := by
    simp only [List.length_replicate]
    omega
  have hfil : List.filter (fun p => decide (0 ≤ p.1))
      (List.replicate 10001 ((5 : ℤ), (1 : ℕ)))
      = List.replicate 10001 ((5 : ℤ), (1 : ℕ)) :=
    List.filter_eq_self.mpr (fun a ha => by
      rw [List.eq_of_mem_replicate ha]
      decide)
  have hV0 : ((List.take (10012 - 1 - 10) (List.drop 10
      ((List.replicate 10011 (5 : ℤ) ++ [7]).zip
        (List.replicate 10012 (1 : ℕ))))).foldl
      (fun cs p => update_one 1 [7] cs p.1 p.2)
      (List.replicate 3 t_init)).getD 0 t_init
      = { mean := ((0 : ℚ), ((5 : ℤ) : ℚ)), m2 := (0, 0),
          n := (0, 10001) } := by
    rw [pairs_fold_raw 1 [7] _ (List.replicate 3 t_init) (by simp),
      c5_pairs, hfil,
      show (List.replicate 3 t_init).getD 0 t_init = t_init from rfl,
      c5_fold]
  constructor
  · rw [update_statistics_eq_pairs 1 [7] _ _ _ 10012 hexec hcls]
    exact hV0
  · rw [update_statistics_eq_pairs 1 [7] _ _ _ 10012 hexec hcls]
    have h := pairs_fold_so_unchanged 1 [7]
      (List.take (10012 - 1 - 10) (List.drop 10
        ((List.replicate 10011 (5 : ℤ) ++ [7]).zip
          (List.replicate 10012 (1 : ℕ)))))
      (List.replicate 3 t_init) (by simp) (by rw [hV0]; decide)
    rw [show (List.replicate 3 t_init).getD (1 + 1) t_init = t_init from rfl]
      at h
    exact h

/-- Counterexample to C5 as stated: in a reachable accumulating step whose
batch pushes 10001 retained class-1 deltas, the raw class-1 count ends at
10001, above 10000, so the either-class condition of the claim held when
the last retained delta was processed, yet the second-order accumulator at
index 1 + P received no push at all: the source gates the second-order
test on the class-0 count only. -/
theorem second_order_class1_cex :
    ((dudect_main 10012 1 10000 c5_state (List.replicate 10011 5)
        (List.replicate 10012 1)).1.ttest_ctxs.getD 0 t_init).n.2 = 10001
    ∧ 10000 < ((dudect_main 10012 1 10000 c5_state (List.replicate 10011 5)
        (List.replicate 10012 1)).1.ttest_ctxs.getD 0 t_init).n.2
    ∧ (dudect_main 10012 1 10000 c5_state (List.replicate 10011 5)
        (List.replicate 10012 1)).1.ttest_ctxs.getD 2 t_init = t_init := by
  have hstep : (dudect_main 10012 1 10000 c5_state (List.replicate 10011 5)
      (List.replicate 10012 1)).1.ttest_ctxs
      = update_statistics 1 [7] (List.replicate 3 t_init)
          (List.replicate 10011 5 ++ [7]) (List.replicate 10012 1) 10012 := by
    rw [dudect_main_accum 10012 1 10000 c5_state _ _
      (by rw [c5_state_percentiles]; decide)]
    dsimp only
    rw [c5_state_percentiles, c5_state_ttest, c5_state_exec,
      show ((0 : ℤ) :: List.replicate 10011 7).getD (10012 - 1) 0 = 7 from by
        rw [show (10012 : ℕ) - 1 = 10011 from by norm_num]
        exact getD_zero_cons_replicate 10011 10011 7 (by omega) (by omega)]
  obtain ⟨hU0, hU2⟩ := c5_U
  refine ⟨?_, ?_, ?_⟩
  · rw [hstep, hU0]
  · rw [hstep, hU0]
    decide
  · rw [hstep]
    exact hU2

end Dudect
